import Mathlib

set_option linter.unusedVariables false

/-! Shallow embedding of the buffer pool core of the repository: the LRU-K replacer
(`src/buffer/lru_k_replacer.cpp`), the buffer pool manager
(`src/buffer/buffer_pool_manager.cpp`) and the page guards
(`src/storage/page/page_guard.cpp`).  Frame ids (`frame_id_t`, an `int32_t` holding
values in `[0, pool_size)`) are modelled as `Nat`; page ids (`page_id_t`, an `int32_t`
with sentinel `INVALID_PAGE_ID = -1`) are modelled as `Int`.  `std::unordered_map` is
modelled as an association list with unique keys; `operator[]` semantics (lookup that
value-initializes an absent entry) is modelled explicitly because the source relies on
it.  Page bytes are abstracted to a single `Nat` value. -/

/-- Association-list lookup, modelling `std::unordered_map::find`/read access. -/
def alookup {κ α : Type} [DecidableEq κ] (m : List (κ × α)) (k : κ) : Option α :=
  match m with
  | [] => none
  | (k1, v) :: t => if k1 = k then some v else alookup t k

/-- Association-list store, modelling `std::unordered_map` assignment: replaces the
entry with key `k` in place, or appends a fresh entry when the key is absent. -/
def aInsert {κ α : Type} [DecidableEq κ] (m : List (κ × α)) (k : κ) (v : α) :
    List (κ × α) :=
  match m with
  | [] => [(k, v)]
  | (k1, v1) :: t => if k1 = k then (k, v) :: t else (k1, v1) :: aInsert t k v

/-- Association-list erase, modelling `std::unordered_map::erase`. -/
def aErase {κ α : Type} [DecidableEq κ] (m : List (κ × α)) (k : κ) : List (κ × α) :=
  m.filter (fun p => decide (p.1 ≠ k))

/-- Shallow embedding of `LRUKNode` (declared in the header, mutated by
`src/buffer/lru_k_replacer.cpp`): per-frame access history (most recent first),
bounded to `k` entries, with the evictability flag. -/
structure LRUKNode where
  k : Nat
  fid : Nat
  history : List Nat
  isFull : Bool
  isEvictable : Bool
deriving DecidableEq

/-- Modelled from the spec: `LRUKNode::UpdateSizeInfo` is declared in the header file,
which is not under `src/`; the spec bounds a node's history to `k` timestamps, so the
node becomes "full" exactly when it holds at least `k` of them. -/
def LRUKNode.updateSizeInfo (n : LRUKNode) : LRUKNode :=
  { n with isFull := n.k ≤ n.history.length }

/-- Embeds `LRUKNode::RecordAccess` (lru_k_replacer.cpp:36-46): stores the frame id,
pushes the timestamp at the front of the history, and either drops the oldest entry
(when the node was already full) or refreshes the fullness flag. -/
def LRUKNode.recordAccess (n : LRUKNode) (frameId : Nat) (timestamp : Nat) :
    Bool × LRUKNode :=
  let isNewNode : Bool := n.history.isEmpty
  let n1 : LRUKNode := { n with fid := frameId, history := timestamp :: n.history }
  let n2 : LRUKNode :=
    if n1.isFull then { n1 with history := n1.history.dropLast } else n1.updateSizeInfo
  (isNewNode, n2)

/-- Modelled from the spec: `LRUKNode::ShouldStoreInBuffer` lives in the header (not
under `src/`); the spec places a frame in the Buffer list exactly when it has at least
`k` recorded accesses. -/
def LRUKNode.shouldStoreInBuffer (n : LRUKNode) : Bool :=
  n.k ≤ n.history.length

/-- Modelled from the spec: the node default-constructed by `unordered_map::operator[]`
is defined in the header (not under `src/`); a fresh node has no recorded accesses, is
not full and not evictable, and carries the single replacer-wide `k` of the spec. -/
def LRUKNode.mkDefault (k : Nat) : LRUKNode :=
  ⟨k, 0, [], false, false⟩

/-- The `Location` tag stored in `node_location_`. -/
inductive NodeLoc
  | history
  | buffer
deriving DecidableEq

/-- Shallow embedding of `LRUKReplacer` state.  `node_location_` in the source pairs
the tag with a `std::list` iterator; the iterator always denotes the unique list node
holding this frame, so the model keeps only the tag and identifies list nodes by frame
id inside `historyList`/`bufferList` (front = most recent). -/
structure LRUKReplacer where
  replacerSize : Nat
  k : Nat
  currentTimestamp : Nat
  currSize : Nat
  nodeStore : List (Nat × LRUKNode)
  historyList : List Nat
  bufferList : List Nat
  nodeLocation : List (Nat × NodeLoc)
deriving DecidableEq

/-- Embeds the `LRUKReplacer` constructor (lru_k_replacer.cpp:49). -/
def LRUKReplacer.start (numFrames k : Nat) : LRUKReplacer :=
  ⟨numFrames, k, 0, 0, [], [], [], []⟩

/-- Models `node_store_[frame_id]`: `unordered_map::operator[]` returns the stored
node, default-constructing (and inserting) one first when the key is absent. -/
def storeGet (m : List (Nat × LRUKNode)) (f : Nat) (k : Nat) :
    LRUKNode × List (Nat × LRUKNode) :=
  match alookup m f with
  | some n => (n, m)
  | none => (LRUKNode.mkDefault k, aInsert m f (LRUKNode.mkDefault k))

/-- The evictability flag recorded for frame `f` (false when no node exists),
i.e. the value of `node->IsEvictable()` for the stored node. -/
def LRUKReplacer.flagOf (r : LRUKReplacer) (f : Nat) : Bool :=
  match alookup r.nodeStore f with
  | some n => n.isEvictable
  | none => false

/-- `std::list::erase` on the iterator cached in `node_location_` unlinks the pointed-to
list node from whichever chain physically contains it, regardless of the list object the
call is made on.  A frame sits in at most one of the two chains, so the model removes
`f` from both. -/
def LRUKReplacer.eraseFromLists (r : LRUKReplacer) (f : Nat) : LRUKReplacer :=
  { r with historyList := r.historyList.filter (fun x => decide (x ≠ f)),
           bufferList := r.bufferList.filter (fun x => decide (x ≠ f)) }

/-- Embeds `LRUKReplacer::RemoveNode` (lru_k_replacer.cpp:99-113): unlinks the frame's
list node, erases its location and store entries, and decrements `curr_size_`. -/
def LRUKReplacer.removeNode (r : LRUKReplacer) (f : Nat) : Nat × LRUKReplacer :=
  let r1 := r.eraseFromLists f
  (f, { r1 with nodeLocation := aErase r1.nodeLocation f,
                nodeStore := aErase r1.nodeStore f,
                currSize := r1.currSize - 1 })

/-- Embeds `LRUKReplacer::Evict` (lru_k_replacer.cpp:51-65): returns early when
`curr_size_` is zero, otherwise scans the History list from the back (least recent)
for an evictable node, then the Buffer list.  In the source the second scan
dereferences `rend()` when it finds nothing (undefined behaviour); the model returns
`none` in that branch. -/
def LRUKReplacer.evict (r : LRUKReplacer) : Option (Nat × LRUKReplacer) :=
  if r.currSize = 0 then none
  else
    match r.historyList.reverse.find? (fun f => r.flagOf f) with
    | some f => some (r.removeNode f)
    | none =>
      match r.bufferList.reverse.find? (fun f => r.flagOf f) with
      | some f => some (r.removeNode f)
      | none => none

/-- Embeds `LRUKReplacer::SetEvictable` (lru_k_replacer.cpp:71-79); note that
`node_store_[frame_id]` default-constructs an entry when the frame is unknown. -/
def LRUKReplacer.setEvictable (r : LRUKReplacer) (f : Nat) (flag : Bool) :
    LRUKReplacer :=
  let p := storeGet r.nodeStore f r.k
  let r1 := { r with nodeStore := p.2 }
  let r2 :=
    if p.1.isEvictable && !flag then { r1 with currSize := r1.currSize - 1 }
    else if !p.1.isEvictable && flag then { r1 with currSize := r1.currSize + 1 }
    else r1
  { r2 with nodeStore := aInsert r2.nodeStore f { p.1 with isEvictable := flag } }

/-- Embeds `LRUKReplacer::Remove` (lru_k_replacer.cpp:81-87): throws (modelled as
`none`) when the frame's node is not evictable, after `node_store_[frame_id]` possibly
default-constructed it. -/
def LRUKReplacer.removeFrame (r : LRUKReplacer) (f : Nat) : Option LRUKReplacer :=
  let p := storeGet r.nodeStore f r.k
  if p.1.isEvictable then
    some ({ r with nodeStore := p.2 }.removeNode f).2
  else none

/-- Embeds `LRUKReplacer::RecordAccessImplement` (lru_k_replacer.cpp:115-142).
`current_timestamp_` is wall-clock in the source (`UpdateCurrentTimeStamp`,
lru_k_replacer.cpp:95-97); its value is stored but never compared, so a strictly
monotone logical counter stands in for it.  Exceeding the capacity throws in the
source and is modelled as `none`.  In the final `else` branch the source erases the
cached iterator through `buffer_` and pushes the node onto `buffer_`, updating only
the iterator half of `node_location_`; a History-tagged frame that is still below `k`
accesses therefore physically moves into the Buffer chain while keeping its History
tag. -/
def LRUKReplacer.recordAccessImplement (r : LRUKReplacer) (f : Nat) :
    Option LRUKReplacer :=
  let r0 := { r with currentTimestamp := r.currentTimestamp + 1 }
  let p := storeGet r0.nodeStore f r0.k
  let q := p.1.recordAccess f r0.currentTimestamp
  let r1 := { r0 with nodeStore := aInsert p.2 f q.2 }
  if q.1 then
    if r1.replacerSize < r1.nodeStore.length then none
    else if q.2.shouldStoreInBuffer then
      some { r1 with bufferList := f :: r1.bufferList,
                     nodeLocation := aInsert r1.nodeLocation f NodeLoc.buffer }
    else
      some { r1 with historyList := f :: r1.historyList,
                     nodeLocation := aInsert r1.nodeLocation f NodeLoc.history }
  else
    if alookup r1.nodeLocation f = some NodeLoc.history ∧ q.2.shouldStoreInBuffer then
      let r2 := r1.eraseFromLists f
      some { r2 with bufferList := f :: r2.bufferList,
                     nodeLocation := aInsert r2.nodeLocation f NodeLoc.buffer }
    else
      let r2 := r1.eraseFromLists f
      some { r2 with bufferList := f :: r2.bufferList }

/-- Embeds the public `LRUKReplacer::RecordAccess` (lru_k_replacer.cpp:66-69); the
latch is irrelevant in this sequential model. -/
def LRUKReplacer.recordAccess (r : LRUKReplacer) (f : Nat) : Option LRUKReplacer :=
  r.recordAccessImplement f

/-- A frame of the pool: embeds `Page` metadata.  The header is not under `src/`; the
spec (§3) gives the initial state of an unused frame: `page_id = INVALID_PAGE_ID`
(modelled as `-1`), zero pin count, clean.  Page bytes are abstracted to one `Nat`. -/
structure Page where
  pageId : Int
  pinCount : Nat
  isDirty : Bool
  data : Nat
deriving DecidableEq

/-- A fresh frame, as produced by the `Page` array construction. -/
def Page.start : Page :=
  ⟨-1, 0, false, 0⟩

/-- One disk-adapter call, as issued through `disk_manager_`. -/
inductive DiskEvent
  | read (pid : Int) (bytes : Nat)
  | write (pid : Int) (bytes : Nat)
deriving DecidableEq

/-- Shallow embedding of `BufferPoolManager` state, together with a model of the disk
(`disk` maps page ids to byte values, unwritten pages read back as `0`) and the trace
of disk-adapter calls (`diskLog`, oldest first). -/
structure BufferPoolManager where
  poolSize : Nat
  pages : List Page
  replacer : LRUKReplacer
  freeList : List Nat
  pageTable : List (Int × Nat)
  nextPageId : Int
  disk : List (Int × Nat)
  diskLog : List DiskEvent
deriving DecidableEq

/-- Embeds the `BufferPoolManager` constructor (buffer_pool_manager.cpp:28-39): all
frames fresh, every frame id on the free list, an empty replacer.  `next_page_id_`
starts at 0 (its initializer is in the header, not under `src/`; the spec's scenarios
allocate ids 0, 1, 2 from a fresh pool). -/
def BufferPoolManager.start (poolSize k : Nat) : BufferPoolManager :=
  ⟨poolSize, List.replicate poolSize Page.start, LRUKReplacer.start poolSize k,
   List.range poolSize, [], 0, [], []⟩

/-- The frame `pages_ + f` (out-of-range access is undefined behaviour in the source
and never happens on the states this development evaluates; the model totalizes it
with a fresh page). -/
def getPage (b : BufferPoolManager) (f : Nat) : Page :=
  b.pages.getD f Page.start

/-- In-place update of frame `f`. -/
def modPage (b : BufferPoolManager) (f : Nat) (g : Page → Page) : BufferPoolManager :=
  { b with pages := b.pages.set f (g (getPage b f)) }

/-- Models `page_table_[page_id]`: `unordered_map::operator[]` value-initializes an
absent entry, so reading a missing page id inserts the mapping `page_id -> 0` and
yields frame 0.  The source reads the page table this way in `FetchPage`, `UnpinPage`,
`FlushPage`, `DeletePage` and `WriteBackPage`. -/
def ptIndex (b : BufferPoolManager) (pid : Int) : Nat × BufferPoolManager :=
  match alookup b.pageTable pid with
  | some f => (f, b)
  | none => (0, { b with pageTable := aInsert b.pageTable pid 0 })

/-- Embeds `disk_manager_->WritePage(pid, bytes)`. -/
def diskWrite (b : BufferPoolManager) (pid : Int) (bytes : Nat) : BufferPoolManager :=
  { b with disk := aInsert b.disk pid bytes,
           diskLog := b.diskLog ++ [DiskEvent.write pid bytes] }

/-- Embeds `BufferPoolManager::FetchFromDisk` (buffer_pool_manager.cpp:184):
`disk_manager_->ReadPage(page->page_id_, page->data_)`. -/
def fetchFromDisk (b : BufferPoolManager) (f : Nat) : BufferPoolManager :=
  let pid := (getPage b f).pageId
  let bytes := (alookup b.disk pid).getD 0
  let b1 := { b with diskLog := b.diskLog ++ [DiskEvent.read pid bytes] }
  modPage b1 f (fun p => { p with data := bytes })

/-- Embeds `BufferPoolManager::WriteBackFrame` (buffer_pool_manager.cpp:174-176):
writes frame `f` under the frame's own current page id. -/
def writeBackFrame (b : BufferPoolManager) (f : Nat) : BufferPoolManager :=
  diskWrite b (getPage b f).pageId (getPage b f).data

/-- Embeds the `page_id_t` overload of `BufferPoolManager::WriteBackPage`
(buffer_pool_manager.cpp:178-180): resolves the frame through `page_table_[page_id]`
(an `operator[]` read that may insert `page_id -> 0`) and writes that frame's bytes
under the GIVEN page id. -/
def writeBackPageId (b : BufferPoolManager) (pid : Int) : BufferPoolManager :=
  let p := ptIndex b pid
  diskWrite p.2 pid (getPage p.2 p.1).data

/-- Embeds the `Page*` overload of `BufferPoolManager::WriteBackPage`
(buffer_pool_manager.cpp:182): writes the frame under its own `page_id_`. -/
def writeBackPagePtr (b : BufferPoolManager) (f : Nat) : BufferPoolManager :=
  diskWrite b (getPage b f).pageId (getPage b f).data

/-- Embeds `BufferPoolManager::PinFrame` (buffer_pool_manager.cpp:186-190): marks the
frame non-evictable, records the access (which can throw on replacer overflow,
modelled as `none`), and increments the pin count. -/
def pinFrame (b : BufferPoolManager) (f : Nat) : Option BufferPoolManager :=
  let b1 := { b with replacer := b.replacer.setEvictable f false }
  match b1.replacer.recordAccessImplement f with
  | none => none
  | some r =>
    some (modPage { b1 with replacer := r } f
      (fun p => { p with pinCount := p.pinCount + 1 }))

/-- The shared tail of `NewPage` (buffer_pool_manager.cpp:65-70): allocate the next
page id, install the page-table mapping, stamp the frame, read it from disk, pin. -/
def newPageInstall (b : BufferPoolManager) (f : Nat) :
    Option (Option (Int × Nat) × BufferPoolManager) :=
  let pid := b.nextPageId
  let b1 := { b with nextPageId := b.nextPageId + 1 }
  let b2 := { b1 with pageTable := aInsert b1.pageTable pid f }
  let b3 := modPage b2 f (fun p => { p with pageId := pid })
  let b4 := fetchFromDisk b3 f
  match pinFrame b4 f with
  | none => none
  | some b5 => some (some (pid, f), b5)

/-- Embeds `BufferPoolManager::NewPage` (buffer_pool_manager.cpp:43-71).  The result's
first component is `none` for a null return (no frame obtainable), else the allocated
page id and the frame that now holds it. -/
def BufferPoolManager.newPage (b : BufferPoolManager) :
    Option (Option (Int × Nat) × BufferPoolManager) :=
  match b.freeList with
  | [] =>
    match b.replacer.evict with
    | none => some (none, b)
    | some (f, r) =>
      let b1 := { b with replacer := r }
      let b2 :=
        if (getPage b1 f).isDirty then
          modPage (writeBackPagePtr b1 f) f (fun p => { p with isDirty := false })
        else b1
      newPageInstall b2 f
  | f :: rest =>
    let b1 := { b with freeList := rest }
    let b2 := modPage b1 f (fun p => { p with isDirty := false })
    newPageInstall b2 f

/-- The shared tail of the `FetchPage` miss paths (buffer_pool_manager.cpp:89, 97,
101-103): stamp the frame with the requested page id, read it from disk, pin. -/
def fetchInstall (b : BufferPoolManager) (pid : Int) (f : Nat) :
    Option (Option Nat × BufferPoolManager) :=
  let b1 := modPage b f (fun p => { p with pageId := pid })
  let b2 := fetchFromDisk b1 f
  match pinFrame b2 f with
  | none => none
  | some b3 => some (some f, b3)

/-- Embeds `BufferPoolManager::FetchPage` (buffer_pool_manager.cpp:73-104).  The hit
path (the frame `page_table_[page_id]` already holds `page_id`) returns without
pinning.  On the free-list miss path a dirty frame is written back through
`WriteBackPage(page_id)` AFTER `page_table_[page_id] = frame_id`, i.e. keyed by the
new page id.  On the eviction miss path the source passes `frame_id` to the
`page_id_t` overload of `WriteBackPage` (`frame_id_t` and `page_id_t` are the same
`int32_t` type), i.e. the frame id is used as a page id. -/
def BufferPoolManager.fetchPage (b : BufferPoolManager) (pid : Int) :
    Option (Option Nat × BufferPoolManager) :=
  let q := ptIndex b pid
  let f0 := q.1
  let b0 := q.2
  if pid = (getPage b0 f0).pageId then some (some f0, b0)
  else
    match b0.freeList with
    | f :: rest =>
      let b1 := { b0 with freeList := rest }
      let b2 := { b1 with pageTable := aInsert b1.pageTable pid f }
      let b3 :=
        if (getPage b2 f).isDirty then
          modPage (writeBackPageId b2 pid) f (fun p => { p with isDirty := false })
        else b2
      fetchInstall b3 pid f
    | [] =>
      match b0.replacer.evict with
      | some (f, r) =>
        let b1 := { b0 with replacer := r }
        let b2 := { b1 with pageTable := aInsert b1.pageTable pid f }
        let b3 :=
          if (getPage b2 f).isDirty then
            modPage (writeBackPageId b2 (Int.ofNat f)) f
              (fun p => { p with isDirty := false })
          else b2
        fetchInstall b3 pid f
      | none => some (none, b0)

/-- Embeds `BufferPoolManager::UnpinPage` (buffer_pool_manager.cpp:106-118).  Note
that the dirty flag is assigned (`page->is_dirty_ = is_dirty`), not OR-ed, and that
`page_table_[page_id]` may insert an entry for a non-resident page id. -/
def BufferPoolManager.unpinPage (b : BufferPoolManager) (pid : Int) (isDirty : Bool) :
    Bool × BufferPoolManager :=
  let q := ptIndex b pid
  let f := q.1
  let b0 := q.2
  let pg := getPage b0 f
  if pg.pageId ≠ pid ∨ pg.pinCount = 0 then (false, b0)
  else
    let pg1 := { pg with isDirty := isDirty, pinCount := pg.pinCount - 1 }
    let b1 := modPage b0 f (fun _ => pg1)
    let b2 :=
      if pg1.pinCount = 0 then { b1 with replacer := b1.replacer.setEvictable f true }
      else b1
    (true, b2)

/-- Embeds `BufferPoolManager::FlushPage` (buffer_pool_manager.cpp:120-131): after the
unconditional write-back it clears the dirty flag and then sets the frame's
`page_id_` to `INVALID_PAGE_ID` (line 129). -/
def BufferPoolManager.flushPage (b : BufferPoolManager) (pid : Int) :
    Bool × BufferPoolManager :=
  let q := ptIndex b pid
  let f := q.1
  let b0 := q.2
  let pg := getPage b0 f
  if pid ≠ pg.pageId ∨ pid = -1 then (false, b0)
  else
    let b1 := writeBackPageId b0 pid
    let q2 := ptIndex b1 pid
    let b2 := modPage q2.2 q2.1 (fun p => { p with isDirty := false })
    let b3 := modPage b2 f (fun p => { p with pageId := -1 })
    (true, b3)

/-- One iteration of the `FlushAllPages` loop (buffer_pool_manager.cpp:136-143) on
frame `i`: occupied frames are written back, marked clean, stamped
`INVALID_PAGE_ID`, and pushed onto the FRONT of the free list; the page table and the
replacer are not touched. -/
def flushStep (b : BufferPoolManager) (i : Nat) : BufferPoolManager :=
  if (getPage b i).pageId ≠ -1 then
    let b1 := writeBackFrame b i
    let b2 := modPage b1 i (fun p => { p with isDirty := false })
    let b3 := modPage b2 i (fun p => { p with pageId := -1 })
    { b3 with freeList := i :: b3.freeList }
  else b

/-- Embeds `BufferPoolManager::FlushAllPages` (buffer_pool_manager.cpp:133-144). -/
def BufferPoolManager.flushAllPages (b : BufferPoolManager) : BufferPoolManager :=
  (List.range b.poolSize).foldl flushStep b

/-- Embeds `BufferPoolManager::DeletePage` (buffer_pool_manager.cpp:146-162): trivial
success when the frame does not hold `page_id` (the source checks the same condition
twice), failure when pinned; otherwise clears the frame's page id, removes the frame
from the replacer (which throws - modelled `none` - on a non-evictable frame) and
pushes the frame onto the free list.  The page-table entry is not erased. -/
def BufferPoolManager.deletePage (b : BufferPoolManager) (pid : Int) :
    Option (Bool × BufferPoolManager) :=
  let q := ptIndex b pid
  let f := q.1
  let b0 := q.2
  let pg := getPage b0 f
  if pg.pageId ≠ pid then some (true, b0)
  else if pg.pinCount ≠ 0 then some (false, b0)
  else
    let b1 := modPage b0 f (fun p => { p with pageId := -1 })
    match b1.replacer.removeFrame f with
    | none => none
    | some r => some (true, { b1 with replacer := r, freeList := f :: b1.freeList })

/-- Embeds `BasicPageGuard` state: the guarded page (a null pointer is `none`), the
dirty hint, and the moved-from/released flag `useless_`.  The default member values
are in the header (not under `src/`); a freshly constructed guard is modelled live
and clean, which no claim below depends on. -/
structure BasicPageGuard where
  page : Option Int
  isDirty : Bool
  useless : Bool
deriving DecidableEq

/-- Embeds `BufferPoolManager::NewPageGuarded` (buffer_pool_manager.cpp:172): the body
is `return {this, nullptr};` - it allocates nothing, pins nothing, performs no I/O,
never writes through the `page_id` out-parameter (modelled value-in/value-out), and
returns a guard holding a null page pointer. -/
def BufferPoolManager.newPageGuarded (b : BufferPoolManager) (pidOut : Int) :
    BasicPageGuard × Int × BufferPoolManager :=
  (⟨none, false, false⟩, pidOut, b)

/-- The operations a client can invoke on the manager. -/
inductive BPMOp
  | newPage
  | fetchPage (pid : Int)
  | unpinPage (pid : Int) (isDirty : Bool)
  | flushPage (pid : Int)
  | flushAllPages
  | deletePage (pid : Int)
deriving DecidableEq

/-- One completed manager operation (`none` when the operation throws and therefore
does not complete). -/
def bpmStep (b : BufferPoolManager) : BPMOp → Option BufferPoolManager
  | BPMOp.newPage => (b.newPage).map (fun p => p.2)
  | BPMOp.fetchPage pid => (b.fetchPage pid).map (fun p => p.2)
  | BPMOp.unpinPage pid d => some (b.unpinPage pid d).2
  | BPMOp.flushPage pid => some (b.flushPage pid).2
  | BPMOp.flushAllPages => some b.flushAllPages
  | BPMOp.deletePage pid => (b.deletePage pid).map (fun p => p.2)

/-- Runs a sequence of manager operations; `some` exactly when every operation
completes. -/
def bpmRun (b : BufferPoolManager) : List BPMOp → Option BufferPoolManager
  | [] => some b
  | op :: ops =>
    match bpmStep b op with
    | none => none
    | some b1 => bpmRun b1 ops

/-- The observable effects of releasing a page guard, in program order. -/
inductive GuardAction
  | rUnlatch (p : Int)
  | wUnlatch (p : Int)
  | unpin (p : Int) (isDirty : Bool)
deriving DecidableEq

/-- Embeds `BasicPageGuard::Drop` (page_guard.cpp:12-15): sets `useless_`, then calls
`bpm_->UnpinPage(page_->GetPageId(), is_dirty_)`.  A null `page_` is dereferenced in
the source (undefined behaviour), modelled as `none`. -/
def BasicPageGuard.drop (g : BasicPageGuard) : Option (List GuardAction × BasicPageGuard) :=
  match g.page with
  | none => none
  | some p => some ([GuardAction.unpin p g.isDirty], { g with useless := true })

/-- Embeds `ReadPageGuard` (its latch state lives in the page; the model records the
unlatch as an action). -/
structure ReadPageGuard where
  guard : BasicPageGuard
deriving DecidableEq

/-- Embeds `WritePageGuard`. -/
structure WritePageGuard where
  guard : BasicPageGuard
deriving DecidableEq

/-- Embeds `ReadPageGuard::Drop` (page_guard.cpp:48-51): releases the shared latch
(`page_->RUnlatch()`), then performs the inner `Drop` (which unpins). -/
def ReadPageGuard.drop (g : ReadPageGuard) : Option (List GuardAction × ReadPageGuard) :=
  match g.guard.page with
  | none => none
  | some p =>
    (g.guard.drop).map (fun q => (GuardAction.rUnlatch p :: q.1, ⟨q.2⟩))

/-- Embeds the `ReadPageGuard` destructor (page_guard.cpp:53-57): drops only when the
guard is still live. -/
def ReadPageGuard.scopeExit (g : ReadPageGuard) : Option (List GuardAction × ReadPageGuard) :=
  if g.guard.useless then some ([], g) else g.drop

/-- Embeds `WritePageGuard::Drop` (page_guard.cpp:72-76): when live, performs ONLY the
inner `Drop` (unpin); no `WUnlatch` call appears anywhere in the body. -/
def WritePageGuard.drop (g : WritePageGuard) : Option (List GuardAction × WritePageGuard) :=
  if g.guard.useless then some ([], g)
  else (g.guard.drop).map (fun q => (q.1, ⟨q.2⟩))

/-- Embeds the `WritePageGuard` destructor (page_guard.cpp:78-82). -/
def WritePageGuard.scopeExit (g : WritePageGuard) : Option (List GuardAction × WritePageGuard) :=
  if g.guard.useless then some ([], g) else g.drop

/-- The operations a client can invoke directly on the replacer. -/
inductive ReplOp
  | record (f : Nat)
  | setEvict (f : Nat) (flag : Bool)
  | removeOp (f : Nat)
  | evictOp
deriving DecidableEq

/-- One replacer operation; the first component is the frame returned by `Evict`
(`none` for the other operations and for an unsuccessful `Evict`); `none` overall when
the operation throws. -/
def replStep (r : LRUKReplacer) : ReplOp → Option (Option Nat × LRUKReplacer)
  | ReplOp.record f => (r.recordAccessImplement f).map (fun r1 => (none, r1))
  | ReplOp.setEvict f flag => some (none, r.setEvictable f flag)
  | ReplOp.removeOp f => (r.removeFrame f).map (fun r1 => (none, r1))
  | ReplOp.evictOp =>
    match r.evict with
    | some (f, r1) => some (some f, r1)
    | none => some (none, r)

/-- Runs a sequence of replacer operations, collecting each operation's output. -/
def replRun (r : LRUKReplacer) : List ReplOp → Option (List (Option Nat) × LRUKReplacer)
  | [] => some ([], r)
  | op :: ops =>
    match replStep r op with
    | none => none
    | some (out, r1) =>
      match replRun r1 ops with
      | none => none
      | some (outs, r2) => some (out :: outs, r2)

/-- Reference model for the refinement claim, following the spec's words (P7: "With
`k=1`, the replacer is strict LRU"): a strict LRU replacer over at most `cap` tracked
frames is a recency-ordered list (most recent first) of frames with their evictability
flags; `Evict` removes and returns the least recently accessed evictable frame. -/
structure StrictLRU where
  cap : Nat
  order : List (Nat × Bool)
deriving DecidableEq

/-- An empty strict LRU replacer. -/
def StrictLRU.start (cap : Nat) : StrictLRU :=
  ⟨cap, []⟩

/-- Whether the strict LRU replacer tracks frame `f`. -/
def StrictLRU.known (l : StrictLRU) (f : Nat) : Bool :=
  (alookup l.order f).isSome

/-- The evictability flag of frame `f` (false when untracked). -/
def StrictLRU.flag (l : StrictLRU) (f : Nat) : Bool :=
  (alookup l.order f).getD false

/-- Strict LRU access: move the frame to the front of the recency order (a fresh
frame enters non-evictable, like a fresh replacer node). -/
def StrictLRU.record (l : StrictLRU) (f : Nat) : StrictLRU :=
  { l with order := (f, l.flag f) :: aErase l.order f }

/-- Pointwise flag update used by the strict LRU model: replaces the flag stored
under key `f`, leaving all other entries unchanged. -/
def updFlag (m : List (Nat × Bool)) (f : Nat) (b : Bool) : List (Nat × Bool) :=
  match m with
  | [] => []
  | (k1, v1) :: t =>
    if k1 = f then (k1, b) :: updFlag t f b else (k1, v1) :: updFlag t f b

/-- Strict LRU evictability toggle. -/
def StrictLRU.setEvict (l : StrictLRU) (f : Nat) (flag : Bool) : StrictLRU :=
  { l with order := updFlag l.order f flag }

/-- Strict LRU removal. -/
def StrictLRU.removeF (l : StrictLRU) (f : Nat) : StrictLRU :=
  { l with order := aErase l.order f }

/-- Strict LRU eviction: the last evictable entry of the recency order, i.e. the
evictable frame whose single most-recent access is oldest. -/
def StrictLRU.evict (l : StrictLRU) : Option Nat × StrictLRU :=
  match l.order.reverse.find? (fun p => p.2) with
  | some p => (some p.1, l.removeF p.1)
  | none => (none, l)

/-- One strict LRU operation (total). -/
def lruStep (l : StrictLRU) : ReplOp → Option Nat × StrictLRU
  | ReplOp.record f => (none, l.record f)
  | ReplOp.setEvict f flag => (none, l.setEvict f flag)
  | ReplOp.removeOp f => (none, l.removeF f)
  | ReplOp.evictOp => l.evict

/-- Runs a sequence of strict LRU operations, collecting each operation's output. -/
def lruRun (l : StrictLRU) : List ReplOp → List (Option Nat) × StrictLRU
  | [] => ([], l)
  | op :: ops =>
    let q := lruStep l op
    let w := lruRun q.2 ops
    (q.1 :: w.1, w.2)

/-- Legality of one replacer operation (spec §4.1): `RecordAccess` may not grow the
replacer beyond its capacity, `SetEvictable` toggles the flag of a tracked frame, and
`Remove` requires a tracked, evictable frame. -/
def legalOp (l : StrictLRU) : ReplOp → Bool
  | ReplOp.record f => l.known f || decide (l.order.length < l.cap)
  | ReplOp.setEvict f _ => l.known f
  | ReplOp.removeOp f => l.known f && l.flag f
  | ReplOp.evictOp => true

/-- Legality of a sequence of replacer operations, tracked along the strict LRU
reference run. -/
def legalOps (l : StrictLRU) : List ReplOp → Bool
  | [] => true
  | op :: ops => legalOp l op && legalOps (lruStep l op).2 ops

/-- The simulation relation of claim C9 between a k = 1 replacer state and the strict
LRU reference state: the History list is empty, the Buffer list is exactly the LRU
recency order, the node store tracks the same frames with matching evictability flags
(each node holding exactly one timestamp), and `curr_size_` counts the evictable
frames. -/
def lruSim (n : Nat) (r : LRUKReplacer) (l : StrictLRU) : Prop :=
  r.replacerSize = n ∧ r.k = 1 ∧ l.cap = n ∧
  r.historyList = [] ∧
  r.bufferList = l.order.map Prod.fst ∧
  r.nodeStore.length = l.order.length ∧
  (r.nodeStore.map Prod.fst).Nodup ∧
  (l.order.map Prod.fst).Nodup ∧
  (∀ f, (alookup r.nodeStore f).isSome = l.known f) ∧
  (∀ f nd, alookup r.nodeStore f = some nd →
    nd.k = 1 ∧ nd.history.length = 1 ∧ nd.isFull = true ∧ nd.isEvictable = l.flag f) ∧
  r.currSize = (l.order.filter Prod.snd).length

/-- The pin-safety invariant of claim C4: every frame whose replacer node is flagged
evictable has a zero pin count. -/
def pinSafe (b : BufferPoolManager) : Prop :=
  ∀ f, b.replacer.flagOf f = true → (getPage b f).pinCount = 0

/-- Operation list for the claim C4 witness: one `NewPage` then an unpin, which makes
frame 0 evictable. -/
def c4Ops : List BPMOp :=
  [BPMOp.newPage, BPMOp.unpinPage 0 false]

/-- The state the claim C4 witness run reaches. -/
def c4State : BufferPoolManager :=
  (bpmRun (BufferPoolManager.start 1 1) c4Ops).getD (BufferPoolManager.start 1 1)

/-- The eviction result at the claim C4 witness state. -/
def c4Evict : Nat × LRUKReplacer :=
  (c4State.replacer.evict).getD (0, LRUKReplacer.start 1 1)

/-- Operation list for the claim C9 witness: three frames recorded, two made
evictable, frame 0 refreshed, then two evictions (strict LRU returns 1 then 0). -/
def c9Ops : List ReplOp :=
  [ReplOp.record 0, ReplOp.record 1, ReplOp.record 2, ReplOp.setEvict 0 true,
   ReplOp.setEvict 1 true, ReplOp.record 0, ReplOp.evictOp, ReplOp.evictOp]

/-- Concrete run for claim C1: a one-frame pool where frame 0 ends up holding page 1
with pin count 1 and a dirty flag set by a prior `UnpinPage(1, true)` (the second pin
arrives because `FlushAllPages` returns a still-pinned frame to the free list, so the
second `NewPage` pins it again). -/
def c1State : BufferPoolManager :=
  (bpmRun (BufferPoolManager.start 1 2)
    [BPMOp.newPage, BPMOp.flushAllPages, BPMOp.newPage, BPMOp.unpinPage 1 true]).getD
    (BufferPoolManager.start 1 2)

/-- Concrete run for claim C2: a one-frame pool whose frame 0 holds page 5, dirty,
about to be evicted by `FetchPage 9`. -/
def c2State : BufferPoolManager :=
  (bpmRun (BufferPoolManager.start 1 1)
    [BPMOp.newPage, BPMOp.unpinPage 0 false, BPMOp.fetchPage 5,
     BPMOp.unpinPage 5 true]).getD (BufferPoolManager.start 1 1)

/-- Concrete run for claim C3: a one-frame pool after `NewPage`, `UnpinPage(0,false)`
and a `FetchPage 5` that evicted page 0 from frame 0. -/
def c3State : BufferPoolManager :=
  (bpmRun (BufferPoolManager.start 1 1)
    [BPMOp.newPage, BPMOp.unpinPage 0 false, BPMOp.fetchPage 5]).getD
    (BufferPoolManager.start 1 1)

/-- Concrete run for claim C5: a replacer with k = 3 after one access to frame 0. -/
def c5State1 : LRUKReplacer :=
  ((LRUKReplacer.start 4 3).recordAccessImplement 0).getD (LRUKReplacer.start 4 3)

/-- Concrete run for claim C5: the same replacer after a second access to frame 0
(still below k = 3). -/
def c5State2 : LRUKReplacer :=
  (c5State1.recordAccessImplement 0).getD c5State1

/-- Concrete run for claims C4 and C7: a one-frame pool right after `NewPage`. -/
def c7State : BufferPoolManager :=
  (bpmRun (BufferPoolManager.start 1 1) [BPMOp.newPage]).getD
    (BufferPoolManager.start 1 1)

/-- Claim C1, evaluation at the failing input: with page 1 resident in frame 0 at pin
count 1 and the frame dirty, `UnpinPage(1, false)` succeeds and CLEARS the dirty flag
(`page->is_dirty_ = is_dirty` at buffer_pool_manager.cpp:113 assigns instead of
OR-ing), contradicting the claimed OR semantics. -/
theorem unpinPage_overwrites_dirty_flag :
    alookup c1State.pageTable 1 = some 0 ∧
    (getPage c1State 0).pageId = 1 ∧
    (getPage c1State 0).pinCount = 1 ∧
    (getPage c1State 0).isDirty = true ∧
    (c1State.unpinPage 1 false).1 = true ∧
    (getPage (c1State.unpinPage 1 false).2 0).isDirty = false := by
  decide

/-- Claim C2, evaluation at the failing input: frame 0 holds dirty page 5; the
`FetchPage 9` eviction path passes the FRAME id (0) to the `page_id_t` overload of
`WriteBackPage` (buffer_pool_manager.cpp:94), so the frame's bytes are written to disk
keyed by page id 0, not by the old occupant's page id 5, and no write keyed 5 ever
happens. -/
theorem fetchPage_writeback_misskeyed :
    (getPage c2State 0).pageId = 5 ∧
    (getPage c2State 0).isDirty = true ∧
    c2State.diskLog = [DiskEvent.read 0 0, DiskEvent.read 5 0] ∧
    (c2State.fetchPage 9).map (fun q => q.2.diskLog) =
      some [DiskEvent.read 0 0, DiskEvent.read 5 0, DiskEvent.write 0 0,
            DiskEvent.read 9 0] ∧
    (c2State.fetchPage 9).map (fun q => decide (DiskEvent.write 5 0 ∈ q.2.diskLog)) =
      some false := by
  decide

/-- Claim C3, evaluation at the failing input: after the completed `FetchPage 5`
evicted page 0 from frame 0 of a one-frame pool, the stale page-table entry `0 -> 0`
is still present, so `|page_table| + |free_list| = 2 + 0` differs from
`pool_size = 1`. -/
theorem eviction_leaves_stale_page_table_entry :
    c3State.poolSize = 1 ∧
    (getPage c3State 0).pageId = 5 ∧
    c3State.pageTable = [(0, 0), (5, 0)] ∧
    c3State.freeList = [] ∧
    c3State.pageTable.length + c3State.freeList.length = 2 := by
  decide

/-- Claim C5, evaluation at the failing input: with k = 3, frame 0 sits in the History
list after its first access; its second access (history length 2, still below k) moves
it into the BUFFER list (while its location tag still reads History), instead of
moving it to the front of the History list. -/
theorem recordAccess_moves_below_k_frame_into_buffer :
    c5State1.k = 3 ∧
    c5State1.historyList = [0] ∧
    c5State1.bufferList = [] ∧
    (alookup c5State2.nodeStore 0).map (fun n => n.history.length) = some 2 ∧
    c5State2.historyList = [] ∧
    c5State2.bufferList = [0] ∧
    alookup c5State2.nodeLocation 0 = some NodeLoc.history := by
  decide

/-- Claim C6, evaluation at the failing input: dropping a live `ReadPageGuard` emits
`RUnlatch` then the unpin, but dropping a live `WritePageGuard` emits ONLY the unpin -
`WritePageGuard::Drop` (page_guard.cpp:72-76) never calls `WUnlatch`, so the exclusive
latch is not released before the unpin.  Released guards do act as no-ops on scope
exit. -/
theorem writePageGuard_drop_never_unlatches :
    ReadPageGuard.drop ⟨⟨some 7, false, false⟩⟩ =
      some ([GuardAction.rUnlatch 7, GuardAction.unpin 7 false],
            ⟨⟨some 7, false, true⟩⟩) ∧
    WritePageGuard.drop ⟨⟨some 7, false, false⟩⟩ =
      some ([GuardAction.unpin 7 false], ⟨⟨some 7, false, true⟩⟩) ∧
    (WritePageGuard.drop ⟨⟨some 7, false, false⟩⟩).map
      (fun q => decide (GuardAction.wUnlatch 7 ∈ q.1)) = some false ∧
    WritePageGuard.scopeExit ⟨⟨some 7, false, true⟩⟩ =
      some ([], ⟨⟨some 7, false, true⟩⟩) ∧
    ReadPageGuard.scopeExit ⟨⟨some 7, false, true⟩⟩ =
      some ([], ⟨⟨some 7, false, true⟩⟩) := by
  decide

/-- Claim C7, evaluation at the failing input: page 0 is resident in frame 0;
`FlushPage 0` succeeds, writes the page back, clears the dirty flag - and then sets
the frame's `page_id_` to `INVALID_PAGE_ID` (buffer_pool_manager.cpp:129), destroying
residency instead of leaving it unchanged. -/
theorem flushPage_invalidates_frame_page_id :
    (getPage c7State 0).pageId = 0 ∧
    alookup c7State.pageTable 0 = some 0 ∧
    (c7State.flushPage 0).1 = true ∧
    (c7State.flushPage 0).2.diskLog = c7State.diskLog ++ [DiskEvent.write 0 0] ∧
    (getPage (c7State.flushPage 0).2 0).isDirty = false ∧
    (getPage (c7State.flushPage 0).2 0).pageId = -1 := by
  decide

/-- Claim C8, evaluation at the failing input: on a fresh one-frame pool, page 5 is
not resident; `UnpinPage(5, false)` returns false but `page_table_[page_id]`
(buffer_pool_manager.cpp:108) has inserted the entry `5 -> 0`, so the manager state is
NOT left unchanged. -/
theorem unpinPage_nonresident_mutates_state :
    ((BufferPoolManager.start 1 1).unpinPage 5 false).1 = false ∧
    (BufferPoolManager.start 1 1).pageTable = [] ∧
    ((BufferPoolManager.start 1 1).unpinPage 5 false).2.pageTable = [(5, 0)] := by
  decide

/-- Claim C10: `NewPageGuarded` returns `{this, nullptr}` - a guard with a null page
pointer - writes nothing through the out-parameter, and leaves the manager (pages,
replacer, page table, free list, `next_page_id_`, disk log) completely unchanged. -/
theorem newPageGuarded_returns_null_guard_and_changes_nothing
    (b : BufferPoolManager) (pidOut : Int) :
    (b.newPageGuarded pidOut).1.page = none ∧
    (b.newPageGuarded pidOut).2.1 = pidOut ∧
    (b.newPageGuarded pidOut).2.2 = b :=
  ⟨rfl, rfl, rfl⟩

theorem alookup_aInsert_self {κ α : Type} [DecidableEq κ] (m : List (κ × α)) (k : κ)
    (v : α) : alookup (aInsert m k v) k = some v := by
  induction m with
  | nil => simp [aInsert, alookup]
  | cons p t ih =>
    obtain ⟨k1, v1⟩ := p
    by_cases h : k1 = k
    · simp [aInsert, alookup, h]
    · simp [aInsert, alookup, h, ih]

theorem alookup_aInsert_ne {κ α : Type} [DecidableEq κ] (m : List (κ × α)) (k g : κ)
    (v : α) (h : g ≠ k) : alookup (aInsert m k v) g = alookup m g := by
  induction m with
  | nil => simp [aInsert, alookup, Ne.symm h]
  | cons p t ih =>
    obtain ⟨k1, v1⟩ := p
    by_cases hp : k1 = k
    · subst hp
      simp [aInsert, alookup, Ne.symm h]
    · simp [aInsert, alookup, hp, ih]

theorem alookup_aErase_self {κ α : Type} [DecidableEq κ] (m : List (κ × α)) (k : κ) :
    alookup (aErase m k) k = none := by
  induction m with
  | nil => rfl
  | cons p t ih =>
    obtain ⟨k1, v1⟩ := p
    by_cases hp : k1 = k
    · simpa [aErase, alookup, List.filter_cons, hp] using ih
    · simpa [aErase, alookup, List.filter_cons, hp] using ih

theorem alookup_aErase_ne {κ α : Type} [DecidableEq κ] (m : List (κ × α)) (k g : κ)
    (h : g ≠ k) : alookup (aErase m k) g = alookup m g := by
  induction m with
  | nil => rfl
  | cons p t ih =>
    obtain ⟨k1, v1⟩ := p
    by_cases hp : k1 = k
    · subst hp
      simpa [aErase, alookup, List.filter_cons, Ne.symm h] using ih
    · by_cases hg : k1 = g
      · simp [aErase, alookup, List.filter_cons, hp, hg, h]
      · simpa [aErase, alookup, List.filter_cons, hp, hg] using ih

theorem storeGet_lookup_self (m : List (Nat × LRUKNode)) (f k : Nat) :
    alookup (storeGet m f k).2 f = some (storeGet m f k).1 := by
  unfold storeGet
  cases h : alookup m f with
  | none => simp [alookup_aInsert_self]
  | some n => simp [h]

theorem storeGet_lookup_ne (m : List (Nat × LRUKNode)) (f k g : Nat) (h : g ≠ f) :
    alookup (storeGet m f k).2 g = alookup m g := by
  unfold storeGet
  cases hm : alookup m f with
  | none => simp [alookup_aInsert_ne _ _ _ _ h]
  | some n => simp

theorem flagOf_def (r : LRUKReplacer) (f : Nat) :
    r.flagOf f = ((alookup r.nodeStore f).map LRUKNode.isEvictable).getD false := by
  unfold LRUKReplacer.flagOf
  cases alookup r.nodeStore f <;> rfl

theorem recordAccess_keeps_flag (n : LRUKNode) (fid ts : Nat) :
    ((n.recordAccess fid ts).2).isEvictable = n.isEvictable := by
  unfold LRUKNode.recordAccess LRUKNode.updateSizeInfo
  by_cases h : n.isFull <;> simp [h]

theorem storeGet_fst_flag (m : List (Nat × LRUKNode)) (f k : Nat) :
    (storeGet m f k).1.isEvictable = ((alookup m f).map LRUKNode.isEvictable).getD false := by
  unfold storeGet
  cases h : alookup m f with
  | none => simp [LRUKNode.mkDefault]
  | some n => simp

theorem flagOf_setEvictable (r : LRUKReplacer) (f : Nat) (flag : Bool) (g : Nat) :
    (r.setEvictable f flag).flagOf g = if g = f then flag else r.flagOf g := by
  by_cases hg : g = f
  · subst hg
    simp only [LRUKReplacer.setEvictable, flagOf_def]
    split
    · simp [alookup_aInsert_self]
    · split
      · simp [alookup_aInsert_self]
      · simp [alookup_aInsert_self]
  · simp only [LRUKReplacer.setEvictable, flagOf_def, if_neg hg]
    split
    · simp [alookup_aInsert_ne _ _ _ _ hg, storeGet_lookup_ne _ _ _ _ hg]
    · split
      · simp [alookup_aInsert_ne _ _ _ _ hg, storeGet_lookup_ne _ _ _ _ hg]
      · simp [alookup_aInsert_ne _ _ _ _ hg, storeGet_lookup_ne _ _ _ _ hg]

theorem flagOf_recordAccessImplement (r : LRUKReplacer) (f : Nat) (r1 : LRUKReplacer)
    (h : r.recordAccessImplement f = some r1) (g : Nat) :
    r1.flagOf g = r.flagOf g := by
  have hstore : r1.nodeStore =
      aInsert (storeGet r.nodeStore f r.k).2 f
        ((storeGet r.nodeStore f r.k).1.recordAccess f (r.currentTimestamp + 1)).2 := by
    simp only [LRUKReplacer.recordAccessImplement] at h
    split at h
    · split at h
      · exact absurd h (by simp)
      · split at h
        · exact (Option.some.injEq _ _).mp h ▸ rfl
        · exact (Option.some.injEq _ _).mp h ▸ rfl
    · split at h
      · exact (Option.some.injEq _ _).mp h ▸ rfl
      · exact (Option.some.injEq _ _).mp h ▸ rfl
  by_cases hg : g = f
  · subst hg
    rw [flagOf_def, hstore, alookup_aInsert_self]
    simp [recordAccess_keeps_flag, storeGet_fst_flag, flagOf_def]
  · rw [flagOf_def, hstore, alookup_aInsert_ne _ _ _ _ hg,
      storeGet_lookup_ne _ _ _ _ hg, flagOf_def]

theorem removeNode_fst (r : LRUKReplacer) (f : Nat) : (r.removeNode f).1 = f := rfl

theorem flagOf_removeNode (r : LRUKReplacer) (f : Nat) (g : Nat) :
    ((r.removeNode f).2).flagOf g = if g = f then false else r.flagOf g := by
  by_cases hg : g = f
  · subst hg
    simp [LRUKReplacer.removeNode, LRUKReplacer.eraseFromLists, flagOf_def,
      alookup_aErase_self]
  · simp [LRUKReplacer.removeNode, LRUKReplacer.eraseFromLists, flagOf_def,
      alookup_aErase_ne _ _ _ hg, if_neg hg]

theorem evict_some (r : LRUKReplacer) (f : Nat) (r1 : LRUKReplacer)
    (h : r.evict = some (f, r1)) :
    r.flagOf f = true ∧ r1 = (r.removeNode f).2 := by
  unfold LRUKReplacer.evict at h
  split at h
  · exact absurd h (by simp)
  · split at h
    · rename_i f0 hfind
      have hp := List.find?_some hfind
      have : f0 = f ∧ (r.removeNode f0).2 = r1 := by
        have := (Option.some.injEq _ _).mp h
        exact ⟨congrArg Prod.fst this, congrArg Prod.snd this⟩
      obtain ⟨h1, h2⟩ := this
      subst h1
      exact ⟨hp, h2.symm⟩
    · split at h
      · rename_i f0 hfind
        have hp := List.find?_some hfind
        have : f0 = f ∧ (r.removeNode f0).2 = r1 := by
          have := (Option.some.injEq _ _).mp h
          exact ⟨congrArg Prod.fst this, congrArg Prod.snd this⟩
        obtain ⟨h1, h2⟩ := this
        subst h1
        exact ⟨hp, h2.symm⟩
      · exact absurd h (by simp)

theorem flagOf_removeFrame (r : LRUKReplacer) (f : Nat) (r1 : LRUKReplacer)
    (h : r.removeFrame f = some r1) (g : Nat) :
    r1.flagOf g = if g = f then false else r.flagOf g := by
  simp only [LRUKReplacer.removeFrame] at h
  split at h
  · have h1 := (Option.some.injEq _ _).mp h
    subst h1
    by_cases hg : g = f
    · subst hg
      simp [flagOf_removeNode]
    · rw [flagOf_removeNode, if_neg hg, if_neg hg, flagOf_def, flagOf_def,
        storeGet_lookup_ne _ _ _ _ hg]
  · exact absurd h (by simp)

theorem list_getD_set_self {α : Type} (l : List α) (i : Nat) (a d : α)
    (h : i < l.length) : (l.set i a).getD i d = a := by
  induction l generalizing i with
  | nil => simp at h
  | cons x t ih =>
    cases i with
    | zero => rfl
    | succ j => exact ih j (by simpa using h)

theorem list_getD_set_ne {α : Type} (l : List α) (i j : Nat) (a d : α) (h : j ≠ i) :
    (l.set i a).getD j d = l.getD j d := by
  induction l generalizing i j with
  | nil => rfl
  | cons x t ih =>
    cases i with
    | zero =>
      cases j with
      | zero => exact absurd rfl h
      | succ j1 => rfl
    | succ i1 =>
      cases j with
      | zero => rfl
      | succ j1 => exact ih i1 j1 (fun hh => h (by rw [hh]))

theorem list_set_oob {α : Type} (l : List α) (i : Nat) (a : α) (h : l.length ≤ i) :
    l.set i a = l := by
  induction l generalizing i with
  | nil => rfl
  | cons x t ih =>
    cases i with
    | zero => simp at h
    | succ j => simp [List.set, ih j (by simpa using h)]

theorem list_getD_oob {α : Type} (l : List α) (i : Nat) (d : α) (h : l.length ≤ i) :
    l.getD i d = d := by
  induction l generalizing i with
  | nil => rfl
  | cons x t ih =>
    cases i with
    | zero => simp at h
    | succ j => exact ih j (by simpa using h)

theorem getPage_congr (b1 b : BufferPoolManager) (g : Nat) (h : b1.pages = b.pages) :
    getPage b1 g = getPage b g := by
  unfold getPage
  rw [h]

theorem getPage_modPage_ne (b : BufferPoolManager) (f : Nat) (h : Page → Page)
    (g : Nat) (hg : g ≠ f) : getPage (modPage b f h) g = getPage b g := by
  unfold getPage modPage
  exact list_getD_set_ne _ _ _ _ _ hg

theorem getPage_modPage_self_or (b : BufferPoolManager) (f : Nat) (h : Page → Page) :
    getPage (modPage b f h) f = h (getPage b f) ∨
    (getPage b f = Page.start ∧ getPage (modPage b f h) f = Page.start) := by
  by_cases hf : f < b.pages.length
  · exact Or.inl (list_getD_set_self _ _ _ _ hf)
  · right
    have hob := Nat.le_of_not_lt hf
    have h1 : getPage b f = Page.start := list_getD_oob _ _ _ hob
    have h2 : b.pages.set f (h (getPage b f)) = b.pages := list_set_oob _ _ _ hob
    refine ⟨h1, ?_⟩
    show (b.pages.set f (h (getPage b f))).getD f Page.start = Page.start
    rw [h2]
    exact h1

theorem pin_modPage (b : BufferPoolManager) (f : Nat) (h : Page → Page)
    (hp : ∀ p, (h p).pinCount = p.pinCount) (g : Nat) :
    (getPage (modPage b f h) g).pinCount = (getPage b g).pinCount := by
  by_cases hg : g = f
  · subst hg
    rcases getPage_modPage_self_or b g h with h1 | ⟨h1, h2⟩
    · rw [h1, hp]
    · rw [h1, h2]
  · rw [getPage_modPage_ne _ _ _ _ hg]

theorem ptIndex_replacer (b : BufferPoolManager) (pid : Int) :
    (ptIndex b pid).2.replacer = b.replacer := by
  unfold ptIndex
  cases alookup b.pageTable pid <;> rfl

theorem ptIndex_pages (b : BufferPoolManager) (pid : Int) :
    (ptIndex b pid).2.pages = b.pages := by
  unfold ptIndex
  cases alookup b.pageTable pid <;> rfl

theorem writeBackPageId_replacer (b : BufferPoolManager) (pid : Int) :
    (writeBackPageId b pid).replacer = b.replacer := by
  unfold writeBackPageId diskWrite
  exact ptIndex_replacer b pid

theorem writeBackPageId_pages (b : BufferPoolManager) (pid : Int) :
    (writeBackPageId b pid).pages = b.pages := by
  unfold writeBackPageId diskWrite
  exact ptIndex_pages b pid

theorem fetchFromDisk_replacer (b : BufferPoolManager) (f : Nat) :
    (fetchFromDisk b f).replacer = b.replacer := rfl

theorem fetchFromDisk_pin (b : BufferPoolManager) (f g : Nat) :
    (getPage (fetchFromDisk b f) g).pinCount = (getPage b g).pinCount := by
  have h1 := pin_modPage
    { b with diskLog := b.diskLog ++
        [DiskEvent.read (getPage b f).pageId ((alookup b.disk (getPage b f).pageId).getD 0)] }
    f (fun p => { p with data := (alookup b.disk (getPage b f).pageId).getD 0 })
    (fun p => rfl) g
  exact h1

theorem pinSafe_of_eq (b1 b : BufferPoolManager) (hr : b1.replacer = b.replacer)
    (hp : ∀ g, (getPage b1 g).pinCount = (getPage b g).pinCount) (h : pinSafe b) :
    pinSafe b1 := by
  intro f hf
  rw [hr] at hf
  rw [hp]
  exact h f hf

theorem pinFrame_some (b : BufferPoolManager) (f : Nat) (b1 : BufferPoolManager)
    (h : pinFrame b f = some b1) :
    b1.replacer.flagOf f = false ∧
    (∀ g, g ≠ f → b1.replacer.flagOf g = b.replacer.flagOf g) ∧
    (∀ g, g ≠ f → (getPage b1 g).pinCount = (getPage b g).pinCount) := by
  simp only [pinFrame] at h
  split at h
  · exact absurd h (by simp)
  · rename_i r heq
    have hb1 : b1 = modPage { b with replacer := r } f
        (fun p => { p with pinCount := p.pinCount + 1 }) :=
      ((Option.some.injEq _ _).mp h).symm
    subst hb1
    have hflag : ∀ g, r.flagOf g = if g = f then false else b.replacer.flagOf g := by
      intro g
      have h1 := flagOf_recordAccessImplement (b.replacer.setEvictable f false) f r heq g
      rw [h1, flagOf_setEvictable]
    refine ⟨?_, ?_, ?_⟩
    · show r.flagOf f = false
      rw [hflag f, if_pos rfl]
    · intro g hg
      show r.flagOf g = b.replacer.flagOf g
      rw [hflag g, if_neg hg]
    · intro g hg
      rw [getPage_modPage_ne _ _ _ _ hg]
      rfl

theorem pinSafe_after_pinFrame (b b5 : BufferPoolManager) (f : Nat)
    (h : pinFrame b f = some b5)
    (hsafe : ∀ g, g ≠ f → b.replacer.flagOf g = true → (getPage b g).pinCount = 0) :
    pinSafe b5 := by
  obtain ⟨h1, h2, h3⟩ := pinFrame_some b f b5 h
  intro g hg
  by_cases hgf : g = f
  · subst hgf
    rw [h1] at hg
    exact absurd hg (by simp)
  · rw [h3 g hgf]
    exact hsafe g hgf (by rw [← h2 g hgf]; exact hg)

theorem pinSafe_newPageInstall (b : BufferPoolManager) (f : Nat)
    (res : Option (Int × Nat)) (b1 : BufferPoolManager)
    (h : newPageInstall b f = some (res, b1))
    (hsafe : ∀ g, g ≠ f → b.replacer.flagOf g = true → (getPage b g).pinCount = 0) :
    pinSafe b1 := by
  simp only [newPageInstall] at h
  split at h
  · exact absurd h (by simp)
  · rename_i b5 heq
    have hb1 : b5 = b1 := congrArg Prod.snd ((Option.some.injEq _ _).mp h)
    subst hb1
    refine pinSafe_after_pinFrame _ _ f heq ?_
    intro g hg hflag
    have e2 : ∀ gg, (getPage (fetchFromDisk (modPage
        { b with nextPageId := b.nextPageId + 1,
                 pageTable := aInsert b.pageTable b.nextPageId f } f
        (fun p => { p with pageId := b.nextPageId })) f) gg).pinCount =
        (getPage b gg).pinCount := by
      intro gg
      exact (fetchFromDisk_pin _ f gg).trans
        (pin_modPage _ f (fun p => { p with pageId := b.nextPageId })
          (fun p => rfl) gg)
    rw [e2 g]
    exact hsafe g hg hflag

theorem pinSafe_fetchInstall (b : BufferPoolManager) (pid : Int) (f : Nat)
    (res : Option Nat) (b1 : BufferPoolManager)
    (h : fetchInstall b pid f = some (res, b1))
    (hsafe : ∀ g, g ≠ f → b.replacer.flagOf g = true → (getPage b g).pinCount = 0) :
    pinSafe b1 := by
  simp only [fetchInstall] at h
  split at h
  · exact absurd h (by simp)
  · rename_i b5 heq
    have hb1 : b5 = b1 := congrArg Prod.snd ((Option.some.injEq _ _).mp h)
    subst hb1
    refine pinSafe_after_pinFrame _ _ f heq ?_
    intro g hg hflag
    have e2 : ∀ gg, (getPage (fetchFromDisk
        (modPage b f (fun p => { p with pageId := pid })) f) gg).pinCount =
        (getPage b gg).pinCount := by
      intro gg
      exact (fetchFromDisk_pin _ f gg).trans
        (pin_modPage _ f (fun p => { p with pageId := pid }) (fun p => rfl) gg)
    rw [e2 g]
    exact hsafe g hg hflag

theorem pinSafe_unpinPage (b : BufferPoolManager) (pid : Int) (d : Bool)
    (h : pinSafe b) : pinSafe (b.unpinPage pid d).2 := by
  have hb0rep := ptIndex_replacer b pid
  have hb0pg : ∀ g, getPage (ptIndex b pid).2 g = getPage b g :=
    fun g => getPage_congr _ _ g (ptIndex_pages b pid)
  simp only [BufferPoolManager.unpinPage]
  split
  · exact pinSafe_of_eq _ _ hb0rep (fun g => by rw [hb0pg g]) h
  · rename_i hcond
    push_neg at hcond
    split
    · rename_i hzero
      intro g hg
      by_cases hgf : g = (ptIndex b pid).1
      · subst hgf
        show (getPage (modPage (ptIndex b pid).2 (ptIndex b pid).1
          (fun _ => { getPage (ptIndex b pid).2 (ptIndex b pid).1 with
                      isDirty := d,
                      pinCount := (getPage (ptIndex b pid).2 (ptIndex b pid).1).pinCount - 1 }))
          (ptIndex b pid).1).pinCount = 0
        rcases getPage_modPage_self_or (ptIndex b pid).2 (ptIndex b pid).1
          (fun _ => { getPage (ptIndex b pid).2 (ptIndex b pid).1 with
                      isDirty := d,
                      pinCount := (getPage (ptIndex b pid).2 (ptIndex b pid).1).pinCount - 1 })
          with h1 | ⟨_, h2⟩
        · rw [h1]
          exact hzero
        · rw [h2]
          rfl
      · have hg2 : ((ptIndex b pid).2.replacer.setEvictable (ptIndex b pid).1
            true).flagOf g = true := hg
        rw [flagOf_setEvictable, if_neg hgf, hb0rep] at hg2
        have hpin := h g hg2
        show (getPage (modPage (ptIndex b pid).2 (ptIndex b pid).1
          (fun _ => { getPage (ptIndex b pid).2 (ptIndex b pid).1 with
                      isDirty := d,
                      pinCount := (getPage (ptIndex b pid).2 (ptIndex b pid).1).pinCount - 1 }))
          g).pinCount = 0
        rw [getPage_modPage_ne _ _ _ _ hgf, hb0pg g]
        exact hpin
    · rename_i hnz
      intro g hg
      by_cases hgf : g = (ptIndex b pid).1
      · subst hgf
        have hg1 : b.replacer.flagOf (ptIndex b pid).1 = true := by
          rw [← hb0rep]
          exact hg
        have hpin := h _ hg1
        rw [← hb0pg (ptIndex b pid).1] at hpin
        exact absurd hpin hcond.2
      · have hg1 : b.replacer.flagOf g = true := by
          rw [← hb0rep]
          exact hg
        have hpin := h g hg1
        show (getPage (modPage (ptIndex b pid).2 (ptIndex b pid).1
          (fun _ => { getPage (ptIndex b pid).2 (ptIndex b pid).1 with
                      isDirty := d,
                      pinCount := (getPage (ptIndex b pid).2 (ptIndex b pid).1).pinCount - 1 }))
          g).pinCount = 0
        rw [getPage_modPage_ne _ _ _ _ hgf, hb0pg g]
        exact hpin

theorem pin_modPage_dirty (b : BufferPoolManager) (f : Nat) (v : Bool) (g : Nat) :
    (getPage (modPage b f (fun p => { p with isDirty := v })) g).pinCount =
    (getPage b g).pinCount :=
  pin_modPage b f (fun p => { p with isDirty := v }) (fun p => rfl) g

theorem pin_modPage_pageId (b : BufferPoolManager) (f : Nat) (v : Int) (g : Nat) :
    (getPage (modPage b f (fun p => { p with pageId := v })) g).pinCount =
    (getPage b g).pinCount :=
  pin_modPage b f (fun p => { p with pageId := v }) (fun p => rfl) g

theorem getPage_ptIndex (b : BufferPoolManager) (pid : Int) (g : Nat) :
    getPage (ptIndex b pid).2 g = getPage b g :=
  getPage_congr _ _ g (ptIndex_pages b pid)

theorem getPage_writeBackPageId (b : BufferPoolManager) (pid : Int) (g : Nat) :
    getPage (writeBackPageId b pid) g = getPage b g :=
  getPage_congr _ _ g (writeBackPageId_pages b pid)

theorem pinSafe_flushPage (b : BufferPoolManager) (pid : Int) (h : pinSafe b) :
    pinSafe (b.flushPage pid).2 := by
  simp only [BufferPoolManager.flushPage]
  split
  · exact pinSafe_of_eq _ _ (ptIndex_replacer b pid) (fun g => by rw [getPage_ptIndex]) h
  · refine pinSafe_of_eq _ _ ?_ ?_ h
    · show (ptIndex (writeBackPageId (ptIndex b pid).2 pid) pid).2.replacer = b.replacer
      rw [ptIndex_replacer, writeBackPageId_replacer, ptIndex_replacer]
    · intro g
      simp only [pin_modPage_pageId, pin_modPage_dirty, getPage_ptIndex,
        getPage_writeBackPageId]

theorem flushStep_replacer (b : BufferPoolManager) (i : Nat) :
    (flushStep b i).replacer = b.replacer := by
  unfold flushStep
  split <;> rfl

theorem flushStep_pin (b : BufferPoolManager) (i g : Nat) :
    (getPage (flushStep b i) g).pinCount = (getPage b g).pinCount := by
  unfold flushStep
  split
  · have t1 := pin_modPage_pageId
      (modPage (writeBackFrame b i) i (fun p => { p with isDirty := false })) i (-1) g
    have t2 := pin_modPage_dirty (writeBackFrame b i) i false g
    exact t1.trans t2
  · rfl

theorem foldl_flushStep_replacer (l : List Nat) (b : BufferPoolManager) :
    (l.foldl flushStep b).replacer = b.replacer := by
  induction l generalizing b with
  | nil => rfl
  | cons x t ih => rw [List.foldl_cons, ih, flushStep_replacer]

theorem foldl_flushStep_pin (l : List Nat) (b : BufferPoolManager) (g : Nat) :
    (getPage (l.foldl flushStep b) g).pinCount = (getPage b g).pinCount := by
  induction l generalizing b with
  | nil => rfl
  | cons x t ih => rw [List.foldl_cons, ih, flushStep_pin]

theorem pinSafe_flushAll (b : BufferPoolManager) (h : pinSafe b) :
    pinSafe b.flushAllPages :=
  pinSafe_of_eq _ _ (foldl_flushStep_replacer _ _) (fun g => foldl_flushStep_pin _ _ _) h

theorem pinSafe_deletePage (b : BufferPoolManager) (pid : Int) (res : Bool)
    (b1 : BufferPoolManager) (h : pinSafe b) (hs : b.deletePage pid = some (res, b1)) :
    pinSafe b1 := by
  simp only [BufferPoolManager.deletePage] at hs
  split at hs
  · have hb : (ptIndex b pid).2 = b1 := congrArg Prod.snd ((Option.some.injEq _ _).mp hs)
    subst hb
    exact pinSafe_of_eq _ _ (ptIndex_replacer b pid) (fun g => by rw [getPage_ptIndex]) h
  · split at hs
    · have hb : (ptIndex b pid).2 = b1 := congrArg Prod.snd ((Option.some.injEq _ _).mp hs)
      subst hb
      exact pinSafe_of_eq _ _ (ptIndex_replacer b pid) (fun g => by rw [getPage_ptIndex]) h
    · split at hs
      · exact absurd hs (by simp)
      · rename_i r heq
        have hb : _ = b1 := congrArg Prod.snd ((Option.some.injEq _ _).mp hs)
        subst hb
        intro g hg
        have heq2 : (ptIndex b pid).2.replacer.removeFrame (ptIndex b pid).1 = some r := heq
        have hflag : r.flagOf g = true := hg
        rw [flagOf_removeFrame _ _ _ heq2 g] at hflag
        by_cases hgf : g = (ptIndex b pid).1
        · rw [if_pos hgf] at hflag
          exact absurd hflag (by simp)
        · rw [if_neg hgf, ptIndex_replacer] at hflag
          have hpin := h g hflag
          show (getPage (modPage (ptIndex b pid).2 (ptIndex b pid).1
            (fun p => { p with pageId := -1 })) g).pinCount = 0
          rw [pin_modPage_pageId, getPage_ptIndex]
          exact hpin

theorem pinSafe_newPage (b : BufferPoolManager) (res : Option (Int × Nat))
    (b1 : BufferPoolManager) (h : pinSafe b) (hs : b.newPage = some (res, b1)) :
    pinSafe b1 := by
  simp only [BufferPoolManager.newPage] at hs
  split at hs
  · split at hs
    · have hb : b = b1 := congrArg Prod.snd ((Option.some.injEq _ _).mp hs)
      subst hb
      exact h
    · rename_i f r heq
      obtain ⟨hflagf, hrdef⟩ := evict_some b.replacer f r heq
      split at hs
      · refine pinSafe_newPageInstall _ f res b1 hs ?_
        intro g hg hflag
        have hflag2 : r.flagOf g = true := hflag
        rw [hrdef, flagOf_removeNode, if_neg hg] at hflag2
        have hpin := h g hflag2
        show (getPage (modPage (writeBackPagePtr { b with replacer := r } f) f
          (fun p => { p with isDirty := false })) g).pinCount = 0
        rw [pin_modPage_dirty]
        exact hpin
      · refine pinSafe_newPageInstall _ f res b1 hs ?_
        intro g hg hflag
        have hflag2 : r.flagOf g = true := hflag
        rw [hrdef, flagOf_removeNode, if_neg hg] at hflag2
        exact h g hflag2
  · rename_i f rest heq
    refine pinSafe_newPageInstall _ f res b1 hs ?_
    intro g hg hflag
    have hflag2 : b.replacer.flagOf g = true := hflag
    have hpin := h g hflag2
    show (getPage (modPage { b with freeList := rest } f
      (fun p => { p with isDirty := false })) g).pinCount = 0
    rw [pin_modPage_dirty]
    exact hpin

theorem modPage_replacer (b : BufferPoolManager) (f : Nat) (h : Page → Page) :
    (modPage b f h).replacer = b.replacer := rfl

theorem pinSafe_fetchPage (b : BufferPoolManager) (pid : Int) (res : Option Nat)
    (b1 : BufferPoolManager) (h : pinSafe b) (hs : b.fetchPage pid = some (res, b1)) :
    pinSafe b1 := by
  simp only [BufferPoolManager.fetchPage] at hs
  split at hs
  · have hb : (ptIndex b pid).2 = b1 := congrArg Prod.snd ((Option.some.injEq _ _).mp hs)
    subst hb
    exact pinSafe_of_eq _ _ (ptIndex_replacer b pid) (fun g => by rw [getPage_ptIndex]) h
  · split at hs
    · rename_i f rest heq
      split at hs
      · refine pinSafe_fetchInstall _ pid f res b1 hs ?_
        intro g hg hflag
        rw [modPage_replacer, writeBackPageId_replacer] at hflag
        have hflag3 : (ptIndex b pid).2.replacer.flagOf g = true := hflag
        rw [ptIndex_replacer] at hflag3
        have hpin := h g hflag3
        rw [pin_modPage_dirty, getPage_writeBackPageId]
        show (getPage (ptIndex b pid).2 g).pinCount = 0
        rw [getPage_ptIndex]
        exact hpin
      · refine pinSafe_fetchInstall _ pid f res b1 hs ?_
        intro g hg hflag
        have hflag3 : (ptIndex b pid).2.replacer.flagOf g = true := hflag
        rw [ptIndex_replacer] at hflag3
        have hpin := h g hflag3
        show (getPage (ptIndex b pid).2 g).pinCount = 0
        rw [getPage_ptIndex]
        exact hpin
    · split at hs
      · rename_i f r heq
        have heq2 : (ptIndex b pid).2.replacer.evict = some (f, r) := heq
        obtain ⟨hflagf, hrdef⟩ := evict_some _ _ _ heq2
        split at hs
        · refine pinSafe_fetchInstall _ pid f res b1 hs ?_
          intro g hg hflag
          rw [modPage_replacer, writeBackPageId_replacer] at hflag
          have hflag3 : r.flagOf g = true := hflag
          rw [hrdef, flagOf_removeNode, if_neg hg, ptIndex_replacer] at hflag3
          have hpin := h g hflag3
          rw [pin_modPage_dirty, getPage_writeBackPageId]
          show (getPage (ptIndex b pid).2 g).pinCount = 0
          rw [getPage_ptIndex]
          exact hpin
        · refine pinSafe_fetchInstall _ pid f res b1 hs ?_
          intro g hg hflag
          have hflag3 : r.flagOf g = true := hflag
          rw [hrdef, flagOf_removeNode, if_neg hg, ptIndex_replacer] at hflag3
          have hpin := h g hflag3
          show (getPage (ptIndex b pid).2 g).pinCount = 0
          rw [getPage_ptIndex]
          exact hpin
      · have hb : (ptIndex b pid).2 = b1 :=
          congrArg Prod.snd ((Option.some.injEq _ _).mp hs)
        subst hb
        exact pinSafe_of_eq _ _ (ptIndex_replacer b pid) (fun g => by rw [getPage_ptIndex]) h

theorem pinSafe_step (b : BufferPoolManager) (op : BPMOp) (b1 : BufferPoolManager)
    (h : pinSafe b) (hs : bpmStep b op = some b1) : pinSafe b1 := by
  cases op with
  | newPage =>
    simp only [bpmStep, Option.map_eq_some'] at hs
    obtain ⟨p, hp, hp2⟩ := hs
    subst hp2
    exact pinSafe_newPage b p.1 p.2 h (by rw [hp])
  | fetchPage pid =>
    simp only [bpmStep, Option.map_eq_some'] at hs
    obtain ⟨p, hp, hp2⟩ := hs
    subst hp2
    exact pinSafe_fetchPage b pid p.1 p.2 h (by rw [hp])
  | unpinPage pid d =>
    simp only [bpmStep] at hs
    have hb : (b.unpinPage pid d).2 = b1 := (Option.some.injEq _ _).mp hs
    subst hb
    exact pinSafe_unpinPage b pid d h
  | flushPage pid =>
    simp only [bpmStep] at hs
    have hb : (b.flushPage pid).2 = b1 := (Option.some.injEq _ _).mp hs
    subst hb
    exact pinSafe_flushPage b pid h
  | flushAllPages =>
    simp only [bpmStep] at hs
    have hb : b.flushAllPages = b1 := (Option.some.injEq _ _).mp hs
    subst hb
    exact pinSafe_flushAll b h
  | deletePage pid =>
    simp only [bpmStep, Option.map_eq_some'] at hs
    obtain ⟨p, hp, hp2⟩ := hs
    subst hp2
    exact pinSafe_deletePage b pid p.1 p.2 h (by rw [hp])

theorem pinSafe_run (b : BufferPoolManager) (ops : List BPMOp) (s : BufferPoolManager)
    (h : pinSafe b) (hr : bpmRun b ops = some s) : pinSafe s := by
  induction ops generalizing b with
  | nil =>
    have hb : b = s := (Option.some.injEq _ _).mp hr
    subst hb
    exact h
  | cons op ops ih =>
    simp only [bpmRun] at hr
    split at hr
    · exact absurd hr (by simp)
    · rename_i b2 hstep
      exact ih b2 (pinSafe_step b op b2 h hstep) hr

theorem pinSafe_start (n k : Nat) : pinSafe (BufferPoolManager.start n k) := by
  intro f hf
  simp [flagOf_def, BufferPoolManager.start, LRUKReplacer.start, alookup] at hf

/-- Claim C4: after any completed sequence of manager operations on a fresh pool, a
successful `Evict` on the replacer returns a frame whose evictability flag is set -
`Evict` only ever selects nodes satisfying `IsEvictable` - and, because the manager
marks a frame non-evictable whenever it pins it, that frame's pin count is zero. -/
theorem evict_returns_only_evictable_unpinned (n k : Nat) (ops : List BPMOp)
    (s : BufferPoolManager) (hrun : bpmRun (BufferPoolManager.start n k) ops = some s)
    (f : Nat) (r1 : LRUKReplacer) (hev : s.replacer.evict = some (f, r1)) :
    s.replacer.flagOf f = true ∧ (getPage s f).pinCount = 0 := by
  have hsafe := pinSafe_run _ ops s (pinSafe_start n k) hrun
  have hf := (evict_some _ _ _ hev).1
  exact ⟨hf, hsafe f hf⟩

/-- Witness for claim C4 at a concrete run on a one-frame pool. -/
theorem evict_returns_only_evictable_unpinned_witness :
    c4State.replacer.flagOf c4Evict.1 = true ∧
    (getPage c4State c4Evict.1).pinCount = 0 :=
  evict_returns_only_evictable_unpinned 1 1 c4Ops c4State (by decide) c4Evict.1
    c4Evict.2 (by decide)

theorem alookup_isSome_iff {κ α : Type} [DecidableEq κ] (m : List (κ × α)) (f : κ) :
    (alookup m f).isSome = true ↔ f ∈ m.map Prod.fst := by
  induction m with
  | nil => simp [alookup]
  | cons p t ih =>
    obtain ⟨k1, v1⟩ := p
    by_cases h : k1 = f
    · simp [alookup, h]
    · simpa [alookup, h, Ne.symm h] using ih

theorem aErase_map_fst {κ α : Type} [DecidableEq κ] (m : List (κ × α)) (f : κ) :
    (aErase m f).map Prod.fst =
    (m.map Prod.fst).filter (fun x => decide (x ≠ f)) := by
  induction m with
  | nil => rfl
  | cons p t ih =>
    obtain ⟨k1, v1⟩ := p
    by_cases h : k1 = f
    · simpa [aErase, List.filter_cons, h] using ih
    · simpa [aErase, List.filter_cons, h] using ih

theorem aErase_of_lookup_none {κ α : Type} [DecidableEq κ] (m : List (κ × α)) (f : κ)
    (h : alookup m f = none) : aErase m f = m := by
  induction m with
  | nil => rfl
  | cons p t ih =>
    obtain ⟨k1, v1⟩ := p
    by_cases hk : k1 = f
    · simp [alookup, hk] at h
    · simp only [alookup, if_neg hk] at h
      simpa [aErase, List.filter_cons, hk] using ih h

theorem alookup_mem {κ α : Type} [DecidableEq κ] (m : List (κ × α)) (f : κ) (v : α)
    (h : alookup m f = some v) : (f, v) ∈ m := by
  induction m with
  | nil => simp [alookup] at h
  | cons p t ih =>
    obtain ⟨k1, v1⟩ := p
    by_cases hk : k1 = f
    · subst hk
      simp only [alookup, if_pos rfl] at h
      have : v1 = v := (Option.some.injEq _ _).mp h
      subst this
      exact List.mem_cons_self _ _
    · simp only [alookup, if_neg hk] at h
      exact List.mem_cons_of_mem _ (ih h)

theorem alookup_of_mem_nodup {κ α : Type} [DecidableEq κ] (m : List (κ × α)) (f : κ)
    (v : α) (hnd : (m.map Prod.fst).Nodup) (h : (f, v) ∈ m) : alookup m f = some v := by
  induction m with
  | nil => simp at h
  | cons p t ih =>
    obtain ⟨k1, v1⟩ := p
    rcases List.mem_cons.mp h with h1 | h1
    · have hk : k1 = f := (congrArg Prod.fst h1).symm
      have hv : v1 = v := (congrArg Prod.snd h1).symm
      subst hk
      subst hv
      simp [alookup]
    · have hk : k1 ≠ f := by
        intro hk
        subst hk
        have : k1 ∈ t.map Prod.fst := List.mem_map.mpr ⟨(k1, v), h1, rfl⟩
        exact (List.nodup_cons.mp hnd).1 this
      simp only [alookup, if_neg hk]
      exact ih (List.nodup_cons.mp hnd).2 h1

theorem aErase_length_add_one {κ α : Type} [DecidableEq κ] (m : List (κ × α)) (f : κ)
    (v : α) (hnd : (m.map Prod.fst).Nodup) (h : alookup m f = some v) :
    (aErase m f).length + 1 = m.length := by
  induction m with
  | nil => simp [alookup] at h
  | cons p t ih =>
    obtain ⟨k1, v1⟩ := p
    by_cases hk : k1 = f
    · subst hk
      have hnotin : k1 ∉ t.map Prod.fst := (List.nodup_cons.mp hnd).1
      have hnone : alookup t k1 = none := by
        cases hcase : alookup t k1 with
        | none => rfl
        | some w =>
          exact absurd (List.mem_map.mpr ⟨(k1, w), alookup_mem t k1 w hcase, rfl⟩) hnotin
      have herase : aErase t k1 = t := aErase_of_lookup_none t k1 hnone
      have hstep : aErase ((k1, v1) :: t) k1 = aErase t k1 := by
        simp [aErase, List.filter_cons]
      rw [hstep, herase, List.length_cons]
    · simp only [alookup, if_neg hk] at h
      have ih2 := ih (List.nodup_cons.mp hnd).2 h
      have hstep : aErase ((k1, v1) :: t) f = (k1, v1) :: aErase t f := by
        simp [aErase, List.filter_cons, hk]
      rw [hstep, List.length_cons, List.length_cons]
      omega

theorem aInsert_map_fst_present {κ α : Type} [DecidableEq κ] (m : List (κ × α))
    (f : κ) (v w : α) (h : alookup m f = some v) :
    (aInsert m f w).map Prod.fst = m.map Prod.fst := by
  induction m with
  | nil => simp [alookup] at h
  | cons p t ih
  =>
    obtain ⟨k1, v1⟩ := p
    by_cases hk : k1 = f
    · subst hk
      simp [aInsert]
    · simp only [alookup, if_neg hk] at h
      simp [aInsert, hk, ih h]

theorem aInsert_length_present {κ α : Type} [DecidableEq κ] (m : List (κ × α))
    (f : κ) (v w : α) (h : alookup m f = some v) :
    (aInsert m f w).length = m.length := by
  have := congrArg List.length (aInsert_map_fst_present m f v w h)
  simpa using this

theorem aInsert_map_fst_absent {κ α : Type} [DecidableEq κ] (m : List (κ × α))
    (f : κ) (w : α) (h : alookup m f = none) :
    (aInsert m f w).map Prod.fst = m.map Prod.fst ++ [f] := by
  induction m with
  | nil => rfl
  | cons p t ih =>
    obtain ⟨k1, v1⟩ := p
    by_cases hk : k1 = f
    · simp [alookup, hk] at h
    · simp only [alookup, if_neg hk] at h
      simp [aInsert, hk, ih h]

theorem aInsert_length_absent {κ α : Type} [DecidableEq κ] (m : List (κ × α))
    (f : κ) (w : α) (h : alookup m f = none) :
    (aInsert m f w).length = m.length + 1 := by
  have := congrArg List.length (aInsert_map_fst_absent m f w h)
  simpa using this

theorem alookup_updFlag_self (m : List (Nat × Bool)) (f : Nat) (b v : Bool)
    (h : alookup m f = some v) : alookup (updFlag m f b) f = some b := by
  induction m with
  | nil => simp [alookup] at h
  | cons p t ih =>
    obtain ⟨k1, v1⟩ := p
    by_cases hk : k1 = f
    · simp [updFlag, alookup, hk]
    · simp only [alookup, if_neg hk] at h
      simp [updFlag, alookup, hk, ih h]

theorem alookup_updFlag_ne (m : List (Nat × Bool)) (f : Nat) (b : Bool) (g : Nat)
    (hg : g ≠ f) : alookup (updFlag m f b) g = alookup m g := by
  induction m with
  | nil => rfl
  | cons p t ih =>
    obtain ⟨k1, v1⟩ := p
    by_cases hk : k1 = f
    · subst hk
      simp [updFlag, alookup, Ne.symm hg, ih]
    · by_cases hkg : k1 = g
      · simp [updFlag, alookup, hk, hkg, hg]
      · simp [updFlag, alookup, hk, hkg, ih]

theorem map_fst_updFlag (m : List (Nat × Bool)) (f : Nat) (b : Bool) :
    (updFlag m f b).map Prod.fst = m.map Prod.fst := by
  induction m with
  | nil => rfl
  | cons p t ih =>
    obtain ⟨k1, v1⟩ := p
    by_cases hk : k1 = f <;> simp [updFlag, hk, ih]

theorem updFlag_length (m : List (Nat × Bool)) (f : Nat) (b : Bool) :
    (updFlag m f b).length = m.length := by
  have := congrArg List.length (map_fst_updFlag m f b)
  simpa using this

theorem countE_aErase {κ : Type} [DecidableEq κ] (m : List (κ × Bool)) (f : κ)
    (v : Bool) (hnd : (m.map Prod.fst).Nodup) (h : alookup m f = some v) :
    ((aErase m f).filter Prod.snd).length + (if v then 1 else 0) =
    (m.filter Prod.snd).length := by
  induction m with
  | nil => simp [alookup] at h
  | cons p t ih =>
    obtain ⟨k1, v1⟩ := p
    by_cases hk : k1 = f
    · subst hk
      have hv : v1 = v := by
        simpa [alookup] using h
      subst hv
      have hnotin : k1 ∉ t.map Prod.fst := (List.nodup_cons.mp hnd).1
      have hnone : alookup t k1 = none := by
        cases hcase : alookup t k1 with
        | none => rfl
        | some w =>
          exact absurd (List.mem_map.mpr ⟨(k1, w), alookup_mem t k1 w hcase, rfl⟩) hnotin
      have hstep : aErase ((k1, v1) :: t) k1 = t := by
        have h1 : aErase ((k1, v1) :: t) k1 = aErase t k1 := by
          simp [aErase, List.filter_cons]
        rw [h1, aErase_of_lookup_none t k1 hnone]
      rw [hstep]
      cases v1 <;> simp [List.filter_cons]
    · simp only [alookup, if_neg hk] at h
      have ih2 := ih (List.nodup_cons.mp hnd).2 h
      have hstep : aErase ((k1, v1) :: t) f = (k1, v1) :: aErase t f := by
        simp [aErase, List.filter_cons, hk]
      rw [hstep]
      cases v1 <;> simp [List.filter_cons] <;> omega

theorem updFlag_of_not_mem (m : List (Nat × Bool)) (f : Nat) (b : Bool)
    (h : f ∉ m.map Prod.fst) : updFlag m f b = m := by
  induction m with
  | nil => rfl
  | cons p t ih =>
    obtain ⟨k1, v1⟩ := p
    have hk : k1 ≠ f := by
      intro hh
      exact h (by simp [hh])
    have ht : f ∉ t.map Prod.fst := by
      intro hh
      exact h (by simp [hh])
    simp [updFlag, hk, ih ht]

theorem countE_updFlag (m : List (Nat × Bool)) (f : Nat) (b v : Bool)
    (hnd : (m.map Prod.fst).Nodup) (h : alookup m f = some v) :
    ((updFlag m f b).filter Prod.snd).length + (if v then 1 else 0) =
    (m.filter Prod.snd).length + (if b then 1 else 0) := by
  induction m with
  | nil => simp [alookup] at h
  | cons p t ih =>
    obtain ⟨k1, v1⟩ := p
    by_cases hk : k1 = f
    · subst hk
      have hv : v1 = v := by
        simpa [alookup] using h
      subst hv
      have hnotin : k1 ∉ t.map Prod.fst := (List.nodup_cons.mp hnd).1
      simp only [updFlag, if_pos rfl]
      rw [updFlag_of_not_mem t k1 b hnotin]
      cases v1 <;> cases b <;> simp [List.filter_cons]
    · simp only [alookup, if_neg hk] at h
      have ih2 := ih (List.nodup_cons.mp hnd).2 h
      simp only [updFlag, if_neg hk]
      cases v1
      · simp [List.filter_cons]
        omega
      · simp [List.filter_cons]
        omega

theorem find?_map_fst (L : List (Nat × Bool)) (p : Nat → Bool)
    (hp : ∀ x ∈ L, p x.1 = x.2) :
    (L.map Prod.fst).find? p = (L.find? Prod.snd).map Prod.fst := by
  induction L with
  | nil => rfl
  | cons x t ih =>
    obtain ⟨k1, v1⟩ := x
    have hx : p k1 = v1 := hp (k1, v1) (List.mem_cons_self _ _)
    cases hv : v1 with
    | true =>
      rw [hv] at hx
      simp [List.find?_cons, hx]
    | false =>
      rw [hv] at hx
      simp only [List.map_cons, List.find?_cons, hx]
      exact ih (fun y hy => hp y (List.mem_cons_of_mem _ hy))

theorem filter_len_zero {α : Type} (l : List α) (q : α → Bool)
    (h : (l.filter q).length = 0) : ∀ x ∈ l, q x = false := by
  intro x hx
  have hnil : l.filter q = [] := List.length_eq_zero.mp h
  by_cases hq : q x = true
  · exact absurd (List.mem_filter.mpr ⟨hx, hq⟩) (by simp [hnil])
  · exact Bool.eq_false_iff.mpr hq

theorem filter_len_pos {α : Type} (l : List α) (q : α → Bool)
    (h : (l.filter q).length ≠ 0) : ∃ x ∈ l, q x = true := by
  cases hnil : l.filter q with
  | nil => exact absurd (by rw [hnil]; rfl) h
  | cons y t =>
    have hy : y ∈ l.filter q := by rw [hnil]; exact List.mem_cons_self _ _
    exact ⟨y, (List.mem_filter.mp hy).1, (List.mem_filter.mp hy).2⟩

theorem recordAccess_mkDefault_one (fid ts : Nat) :
    (LRUKNode.mkDefault 1).recordAccess fid ts =
    (true, ⟨1, fid, [ts], true, false⟩) := rfl

theorem recordAccess_k1_existing (fid0 a : Nat) (ev : Bool) (fid ts : Nat) :
    (LRUKNode.mk 1 fid0 [a] true ev).recordAccess fid ts =
    (false, ⟨1, fid, [ts], true, ev⟩) := rfl

theorem aInsert_aInsert {κ α : Type} [DecidableEq κ] (m : List (κ × α)) (k : κ)
    (v w : α) : aInsert (aInsert m k v) k w = aInsert m k w := by
  induction m with
  | nil => simp [aInsert]
  | cons p t ih =>
    obtain ⟨k1, v1⟩ := p
    by_cases hk : k1 = k
    · simp [aInsert, hk]
    · simp [aInsert, hk, ih]

theorem recordAccess_k1_existing_h (nd : LRUKNode) (hk : nd.k = 1)
    (hlen : nd.history.length = 1) (hfull : nd.isFull = true) (fid ts : Nat) :
    nd.recordAccess fid ts = (false, ⟨1, fid, [ts], true, nd.isEvictable⟩) := by
  obtain ⟨k0, f0, h0, fl, ev⟩ := nd
  simp only at hk hlen hfull
  obtain ⟨a, ha⟩ := List.length_eq_one.mp hlen
  subst hk
  subst hfull
  subst ha
  exact recordAccess_k1_existing f0 a ev fid ts

theorem recordAccessImplement_k1_known (r : LRUKReplacer) (f : Nat) (nd : LRUKNode)
    (hnd : alookup r.nodeStore f = some nd) (hnk : nd.k = 1)
    (hlen : nd.history.length = 1) (hfull : nd.isFull = true) :
    ∃ loc, r.recordAccessImplement f = some
      { r with currentTimestamp := r.currentTimestamp + 1,
               nodeStore := aInsert r.nodeStore f
                 ⟨1, f, [r.currentTimestamp + 1], true, nd.isEvictable⟩,
               historyList := r.historyList.filter (fun x => decide (x ≠ f)),
               bufferList := f :: r.bufferList.filter (fun x => decide (x ≠ f)),
               nodeLocation := loc } := by
  simp only [LRUKReplacer.recordAccessImplement, storeGet, hnd,
    recordAccess_k1_existing_h nd hnk hlen hfull f (r.currentTimestamp + 1),
    LRUKReplacer.eraseFromLists, Bool.false_eq_true, if_false]
  split
  · exact ⟨aInsert r.nodeLocation f NodeLoc.buffer, rfl⟩
  · exact ⟨r.nodeLocation, rfl⟩

theorem recordAccessImplement_k1_fresh (r : LRUKReplacer) (f : Nat) (hk : r.k = 1)
    (hnone : alookup r.nodeStore f = none)
    (hcap : r.nodeStore.length < r.replacerSize) :
    r.recordAccessImplement f = some
      { r with currentTimestamp := r.currentTimestamp + 1,
               nodeStore := aInsert r.nodeStore f
                 ⟨1, f, [r.currentTimestamp + 1], true, false⟩,
               bufferList := f :: r.bufferList,
               nodeLocation := aInsert r.nodeLocation f NodeLoc.buffer } := by
  have hlen : (aInsert (aInsert r.nodeStore f (LRUKNode.mkDefault r.k)) f
      (⟨1, f, [r.currentTimestamp + 1], true, false⟩ : LRUKNode)).length =
      r.nodeStore.length + 1 := by
    rw [aInsert_aInsert]
    exact aInsert_length_absent r.nodeStore f _ hnone
  simp only [LRUKReplacer.recordAccessImplement, storeGet, hnone, hk,
    recordAccess_mkDefault_one f (r.currentTimestamp + 1)]
  rw [aInsert_aInsert] at hlen ⊢
  simp only [hlen]
  have hnotlt : ¬ r.replacerSize < r.nodeStore.length + 1 := by omega
  simp only [if_neg hnotlt]
  have hbuf : (⟨1, f, [r.currentTimestamp + 1], true, false⟩ : LRUKNode).shouldStoreInBuffer = true := by
    simp [LRUKNode.shouldStoreInBuffer]
  simp [hbuf]

theorem setEvictable_known (r : LRUKReplacer) (f : Nat) (b : Bool) (nd : LRUKNode)
    (hnd : alookup r.nodeStore f = some nd) :
    r.setEvictable f b =
      { r with currSize :=
                 if nd.isEvictable && !b then r.currSize - 1
                 else if !nd.isEvictable && b then r.currSize + 1
                 else r.currSize,
               nodeStore := aInsert r.nodeStore f { nd with isEvictable := b } } := by
  simp only [LRUKReplacer.setEvictable, storeGet, hnd]
  by_cases h1 : nd.isEvictable && !b
  · simp [h1]
  · by_cases h2 : !nd.isEvictable && b
    · simp [h1, h2]
    · simp [h1, h2]

theorem removeFrame_known (r : LRUKReplacer) (f : Nat) (nd : LRUKNode)
    (hnd : alookup r.nodeStore f = some nd) (hev : nd.isEvictable = true) :
    r.removeFrame f = some
      { r with nodeStore := aErase r.nodeStore f,
               historyList := r.historyList.filter (fun x => decide (x ≠ f)),
               bufferList := r.bufferList.filter (fun x => decide (x ≠ f)),
               nodeLocation := aErase r.nodeLocation f,
               currSize := r.currSize - 1 } := by
  simp only [LRUKReplacer.removeFrame, storeGet, hnd, hev, if_pos]
  rfl

theorem removeNode_eq (r : LRUKReplacer) (f : Nat) :
    r.removeNode f =
      (f, { r with nodeStore := aErase r.nodeStore f,
                   historyList := r.historyList.filter (fun x => decide (x ≠ f)),
                   bufferList := r.bufferList.filter (fun x => decide (x ≠ f)),
                   nodeLocation := aErase r.nodeLocation f,
                   currSize := r.currSize - 1 }) := rfl

theorem flag_of_alookup (l : StrictLRU) (f : Nat) (v : Bool)
    (h : alookup l.order f = some v) : l.flag f = v := by
  unfold StrictLRU.flag
  rw [h]
  rfl

theorem known_of_alookup (l : StrictLRU) (f : Nat) (v : Bool)
    (h : alookup l.order f = some v) : l.known f = true := by
  unfold StrictLRU.known
  rw [h]
  rfl

theorem lruSim_erase (n : Nat) (r : LRUKReplacer) (l : StrictLRU) (f : Nat)
    (nd : LRUKNode) (hR : lruSim n r l) (hnd : alookup r.nodeStore f = some nd)
    (hbl : alookup l.order f = some true) :
    lruSim n
      { r with nodeStore := aErase r.nodeStore f,
               historyList := r.historyList.filter (fun x => decide (x ≠ f)),
               bufferList := r.bufferList.filter (fun x => decide (x ≠ f)),
               nodeLocation := aErase r.nodeLocation f,
               currSize := r.currSize - 1 }
      (l.removeF f) := by
  obtain ⟨h1, h2, h3, h4, h5, h6, h7, h8, h9, h10, h11⟩ := hR
  have hstorelen : (aErase r.nodeStore f).length + 1 = r.nodeStore.length :=
    aErase_length_add_one r.nodeStore f nd h7 hnd
  have horderlen : (aErase l.order f).length + 1 = l.order.length :=
    aErase_length_add_one l.order f true h8 hbl
  have hcount : ((aErase l.order f).filter Prod.snd).length + 1 =
      (l.order.filter Prod.snd).length := by
    have := countE_aErase l.order f true h8 hbl
    simpa using this
  refine ⟨h1, h2, h3, ?_, ?_, ?_, ?_, ?_, ?_, ?_, ?_⟩
  · rw [h4]
    rfl
  · show r.bufferList.filter (fun x => decide (x ≠ f)) =
      (aErase l.order f).map Prod.fst
    rw [h5, aErase_map_fst]
  · show (aErase r.nodeStore f).length = (aErase l.order f).length
    omega
  · show ((aErase r.nodeStore f).map Prod.fst).Nodup
    rw [aErase_map_fst]
    exact h7.filter _
  · show ((aErase l.order f).map Prod.fst).Nodup
    rw [aErase_map_fst]
    exact h8.filter _
  · intro g
    show (alookup (aErase r.nodeStore f) g).isSome = (l.removeF f).known g
    by_cases hg : g = f
    · subst hg
      unfold StrictLRU.removeF StrictLRU.known
      simp [alookup_aErase_self]
    · unfold StrictLRU.removeF StrictLRU.known
      simp only [alookup_aErase_ne _ _ _ hg]
      exact h9 g
  · intro g nd2 hnd2
    by_cases hg : g = f
    · subst hg
      rw [show alookup (aErase r.nodeStore g) g = none from alookup_aErase_self _ _]
        at hnd2
      exact absurd hnd2 (by simp)
    · rw [alookup_aErase_ne _ _ _ hg] at hnd2
      obtain ⟨hk, hlen, hfull, hflag⟩ := h10 g nd2 hnd2
      refine ⟨hk, hlen, hfull, ?_⟩
      rw [hflag]
      unfold StrictLRU.flag StrictLRU.removeF
      simp only [alookup_aErase_ne _ _ _ hg]
  · show r.currSize - 1 = ((aErase l.order f).filter Prod.snd).length
    omega

theorem lruSim_record_known (n : Nat) (r : LRUKReplacer) (l : StrictLRU) (f : Nat)
    (nd : LRUKNode) (loc : List (Nat × NodeLoc)) (hR : lruSim n r l)
    (hnd : alookup r.nodeStore f = some nd) :
    lruSim n
      { r with currentTimestamp := r.currentTimestamp + 1,
               nodeStore := aInsert r.nodeStore f
                 ⟨1, f, [r.currentTimestamp + 1], true, nd.isEvictable⟩,
               historyList := r.historyList.filter (fun x => decide (x ≠ f)),
               bufferList := f :: r.bufferList.filter (fun x => decide (x ≠ f)),
               nodeLocation := loc }
      (l.record f) := by
  obtain ⟨h1, h2, h3, h4, h5, h6, h7, h8, h9, h10, h11⟩ := hR
  have hknown : l.known f = true := by
    rw [← h9 f, hnd]
    rfl
  obtain ⟨bOld, hbl⟩ : ∃ b, alookup l.order f = some b := by
    unfold StrictLRU.known at hknown
    exact Option.isSome_iff_exists.mp hknown
  have hflagf : l.flag f = bOld := flag_of_alookup l f bOld hbl
  have hndflag : nd.isEvictable = bOld := by
    have := (h10 f nd hnd).2.2.2
    rw [this, hflagf]
  have horderlen : (aErase l.order f).length + 1 = l.order.length :=
    aErase_length_add_one l.order f bOld h8 hbl
  have hcount : ((aErase l.order f).filter Prod.snd).length +
      (if bOld then 1 else 0) = (l.order.filter Prod.snd).length :=
    countE_aErase l.order f bOld h8 hbl
  have hfnotin : f ∉ ((l.order.map Prod.fst).filter (fun x => decide (x ≠ f))) := by
    intro hmem
    have := (List.mem_filter.mp hmem).2
    simp at this
  refine ⟨h1, h2, h3, ?_, ?_, ?_, ?_, ?_, ?_, ?_, ?_⟩
  · rw [h4]
    rfl
  · show f :: r.bufferList.filter (fun x => decide (x ≠ f)) =
      ((f, l.flag f) :: aErase l.order f).map Prod.fst
    rw [h5]
    simp only [List.map_cons, aErase_map_fst]
  · show (aInsert r.nodeStore f _).length = ((f, l.flag f) :: aErase l.order f).length
    rw [aInsert_length_present r.nodeStore f nd _ hnd, List.length_cons]
    omega
  · show ((aInsert r.nodeStore f _).map Prod.fst).Nodup
    rw [aInsert_map_fst_present r.nodeStore f nd _ hnd]
    exact h7
  · show (((f, l.flag f) :: aErase l.order f).map Prod.fst).Nodup
    rw [List.map_cons, aErase_map_fst]
    exact List.nodup_cons.mpr ⟨hfnotin, h8.filter _⟩
  · intro g
    by_cases hg : g = f
    · subst hg
      show (alookup (aInsert r.nodeStore g _) g).isSome = (l.record g).known g
      rw [alookup_aInsert_self]
      unfold StrictLRU.record StrictLRU.known
      simp [alookup]
    · show (alookup (aInsert r.nodeStore f _) g).isSome = (l.record f).known g
      rw [alookup_aInsert_ne _ _ _ _ hg]
      unfold StrictLRU.record StrictLRU.known
      simp only [alookup, if_neg (Ne.symm hg)]
      rw [alookup_aErase_ne _ _ _ hg]
      exact h9 g
  · intro g nd2 hnd2
    by_cases hg : g = f
    · subst hg
      rw [alookup_aInsert_self] at hnd2
      have : (⟨1, g, [r.currentTimestamp + 1], true, nd.isEvictable⟩ : LRUKNode) = nd2 :=
        (Option.some.injEq _ _).mp hnd2
      subst this
      refine ⟨rfl, rfl, rfl, ?_⟩
      unfold StrictLRU.record StrictLRU.flag
      simp [alookup, hndflag, hbl]
    · rw [alookup_aInsert_ne _ _ _ _ hg] at hnd2
      obtain ⟨hk, hlen, hfull, hflag⟩ := h10 g nd2 hnd2
      refine ⟨hk, hlen, hfull, ?_⟩
      rw [hflag]
      unfold StrictLRU.record StrictLRU.flag
      simp only [alookup, if_neg (Ne.symm hg)]
      rw [alookup_aErase_ne _ _ _ hg]
  · show r.currSize = (((f, l.flag f) :: aErase l.order f).filter Prod.snd).length
    rw [h11, hflagf]
    cases bOld <;> simp [List.filter_cons] at hcount ⊢ <;> omega

theorem lruSim_record_fresh (n : Nat) (r : LRUKReplacer) (l : StrictLRU) (f : Nat)
    (hR : lruSim n r l) (hnone : alookup r.nodeStore f = none) :
    lruSim n
      { r with currentTimestamp := r.currentTimestamp + 1,
               nodeStore := aInsert r.nodeStore f
                 ⟨1, f, [r.currentTimestamp + 1], true, false⟩,
               bufferList := f :: r.bufferList,
               nodeLocation := aInsert r.nodeLocation f NodeLoc.buffer }
      (l.record f) := by
  obtain ⟨h1, h2, h3, h4, h5, h6, h7, h8, h9, h10, h11⟩ := hR
  have hknown : l.known f = false := by
    rw [← h9 f, hnone]
    rfl
  have hbl : alookup l.order f = none := by
    unfold StrictLRU.known at hknown
    exact Option.not_isSome_iff_eq_none.mp (by rw [hknown]; simp)
  have hflagf : l.flag f = false := by
    unfold StrictLRU.flag
    rw [hbl]
    rfl
  have herase : aErase l.order f = l.order := aErase_of_lookup_none l.order f hbl
  have hfnotin : f ∉ l.order.map Prod.fst := by
    intro hmem
    have := (alookup_isSome_iff l.order f).mpr hmem
    rw [hbl] at this
    exact absurd this (by simp)
  have hfnotin2 : f ∉ r.nodeStore.map Prod.fst := by
    intro hmem
    have := (alookup_isSome_iff r.nodeStore f).mpr hmem
    rw [hnone] at this
    exact absurd this (by simp)
  refine ⟨h1, h2, h3, h4, ?_, ?_, ?_, ?_, ?_, ?_, ?_⟩
  · show f :: r.bufferList = ((f, l.flag f) :: aErase l.order f).map Prod.fst
    rw [h5, herase]
    rfl
  · show (aInsert r.nodeStore f _).length = ((f, l.flag f) :: aErase l.order f).length
    rw [aInsert_length_absent r.nodeStore f _ hnone, List.length_cons, herase]
    omega
  · show ((aInsert r.nodeStore f _).map Prod.fst).Nodup
    rw [aInsert_map_fst_absent r.nodeStore f _ hnone]
    rw [List.nodup_append]
    refine ⟨h7, List.nodup_singleton f, ?_⟩
    intro a ha hb
    have : a = f := by simpa using hb
    subst this
    exact hfnotin2 ha
  · show (((f, l.flag f) :: aErase l.order f).map Prod.fst).Nodup
    rw [List.map_cons, herase]
    exact List.nodup_cons.mpr ⟨hfnotin, h8⟩
  · intro g
    by_cases hg : g = f
    · subst hg
      show (alookup (aInsert r.nodeStore g _) g).isSome = (l.record g).known g
      rw [alookup_aInsert_self]
      unfold StrictLRU.record StrictLRU.known
      simp [alookup]
    · show (alookup (aInsert r.nodeStore f _) g).isSome = (l.record f).known g
      rw [alookup_aInsert_ne _ _ _ _ hg]
      unfold StrictLRU.record StrictLRU.known
      simp only [alookup, if_neg (Ne.symm hg)]
      rw [alookup_aErase_ne _ _ _ hg]
      exact h9 g
  · intro g nd2 hnd2
    by_cases hg : g = f
    · subst hg
      rw [alookup_aInsert_self] at hnd2
      have : (⟨1, g, [r.currentTimestamp + 1], true, false⟩ : LRUKNode) = nd2 :=
        (Option.some.injEq _ _).mp hnd2
      subst this
      refine ⟨rfl, rfl, rfl, ?_⟩
      unfold StrictLRU.record StrictLRU.flag
      simp [alookup, hbl]
    · rw [alookup_aInsert_ne _ _ _ _ hg] at hnd2
      obtain ⟨hk, hlen, hfull, hflag⟩ := h10 g nd2 hnd2
      refine ⟨hk, hlen, hfull, ?_⟩
      rw [hflag]
      unfold StrictLRU.record StrictLRU.flag
      simp only [alookup, if_neg (Ne.symm hg)]
      rw [alookup_aErase_ne _ _ _ hg]
  · show r.currSize = (((f, l.flag f) :: aErase l.order f).filter Prod.snd).length
    rw [h11, hflagf, herase]
    simp [List.filter_cons]

theorem lruSim_setEvict (n : Nat) (r : LRUKReplacer) (l : StrictLRU) (f : Nat)
    (b : Bool) (hR : lruSim n r l) (hknown : l.known f = true) :
    lruSim n (r.setEvictable f b) (l.setEvict f b) := by
  obtain ⟨h1, h2, h3, h4, h5, h6, h7, h8, h9, h10, h11⟩ := hR
  obtain ⟨nd, hnd⟩ : ∃ nd, alookup r.nodeStore f = some nd := by
    have := h9 f
    rw [hknown] at this
    exact Option.isSome_iff_exists.mp this
  obtain ⟨bOld, hbl⟩ : ∃ v, alookup l.order f = some v := by
    unfold StrictLRU.known at hknown
    exact Option.isSome_iff_exists.mp hknown
  have hflagf : l.flag f = bOld := flag_of_alookup l f bOld hbl
  have hndflag : nd.isEvictable = bOld := by
    have := (h10 f nd hnd).2.2.2
    rw [this, hflagf]
  have hcount := countE_updFlag l.order f b bOld h8 hbl
  rw [setEvictable_known r f b nd hnd]
  refine ⟨h1, h2, h3, h4, ?_, ?_, ?_, ?_, ?_, ?_, ?_⟩
  · show r.bufferList = (updFlag l.order f b).map Prod.fst
    rw [h5, map_fst_updFlag]
  · show (aInsert r.nodeStore f _).length = (updFlag l.order f b).length
    rw [aInsert_length_present r.nodeStore f nd _ hnd, updFlag_length]
    exact h6
  · show ((aInsert r.nodeStore f _).map Prod.fst).Nodup
    rw [aInsert_map_fst_present r.nodeStore f nd _ hnd]
    exact h7
  · show ((updFlag l.order f b).map Prod.fst).Nodup
    rw [map_fst_updFlag]
    exact h8
  · intro g
    by_cases hg : g = f
    · subst hg
      show (alookup (aInsert r.nodeStore g _) g).isSome = (l.setEvict g b).known g
      rw [alookup_aInsert_self]
      unfold StrictLRU.setEvict StrictLRU.known
      rw [alookup_updFlag_self l.order g b bOld hbl]
      rfl
    · show (alookup (aInsert r.nodeStore f _) g).isSome = (l.setEvict f b).known g
      rw [alookup_aInsert_ne _ _ _ _ hg]
      unfold StrictLRU.setEvict StrictLRU.known
      rw [alookup_updFlag_ne l.order f b g hg]
      exact h9 g
  · intro g nd2 hnd2
    by_cases hg : g = f
    · subst hg
      rw [alookup_aInsert_self] at hnd2
      have heq : ({ nd with isEvictable := b } : LRUKNode) = nd2 :=
        (Option.some.injEq _ _).mp hnd2
      subst heq
      obtain ⟨hk, hlen, hfull, hflag⟩ := h10 g nd hnd
      refine ⟨hk, hlen, hfull, ?_⟩
      unfold StrictLRU.setEvict StrictLRU.flag
      rw [alookup_updFlag_self l.order g b bOld hbl]
      rfl
    · rw [alookup_aInsert_ne _ _ _ _ hg] at hnd2
      obtain ⟨hk, hlen, hfull, hflag⟩ := h10 g nd2 hnd2
      refine ⟨hk, hlen, hfull, ?_⟩
      rw [hflag]
      unfold StrictLRU.setEvict StrictLRU.flag
      rw [alookup_updFlag_ne l.order f b g hg]
  · show (if nd.isEvictable && !b then r.currSize - 1
      else if !nd.isEvictable && b then r.currSize + 1 else r.currSize) =
      ((updFlag l.order f b).filter Prod.snd).length
    rw [hndflag, h11]
    cases bOld <;> cases b <;> simp at hcount ⊢ <;> omega

theorem lruSim_step (n : Nat) (r : LRUKReplacer) (l : StrictLRU) (op : ReplOp)
    (hR : lruSim n r l) (hleg : legalOp l op = true) :
    ∃ r1, replStep r op = some ((lruStep l op).1, r1) ∧ lruSim n r1 (lruStep l op).2 := by
  obtain ⟨h1, h2, h3, h4, h5, h6, h7, h8, h9, h10, h11⟩ := hR
  have hR2 : lruSim n r l := ⟨h1, h2, h3, h4, h5, h6, h7, h8, h9, h10, h11⟩
  cases op with
  | record f =>
    by_cases hknown : (alookup r.nodeStore f).isSome = true
    · obtain ⟨nd, hnd⟩ := Option.isSome_iff_exists.mp hknown
      obtain ⟨hk, hlen, hfull, -⟩ := h10 f nd hnd
      obtain ⟨loc, hrec⟩ := recordAccessImplement_k1_known r f nd hnd hk hlen hfull
      refine ⟨_, ?_, lruSim_record_known n r l f nd loc hR2 hnd⟩
      show (r.recordAccessImplement f).map (fun r2 => ((none : Option Nat), r2)) =
        some ((lruStep l (ReplOp.record f)).1, _)
      rw [hrec]
      rfl
    · have hnone : alookup r.nodeStore f = none :=
        Option.not_isSome_iff_eq_none.mp (by simpa using hknown)
      have hknownl : l.known f = false := by
        rw [← h9 f, hnone]
        rfl
      have hlt : l.order.length < l.cap := by
        simpa [legalOp, hknownl] using hleg
      have hcap : r.nodeStore.length < r.replacerSize := by
        rw [h6, h1, ← h3]
        exact hlt
      have hrec := recordAccessImplement_k1_fresh r f h2 hnone hcap
      refine ⟨_, ?_, lruSim_record_fresh n r l f hR2 hnone⟩
      show (r.recordAccessImplement f).map (fun r2 => ((none : Option Nat), r2)) =
        some ((lruStep l (ReplOp.record f)).1, _)
      rw [hrec]
      rfl
  | setEvict f b =>
    have hknown : l.known f = true := by
      simpa [legalOp] using hleg
    exact ⟨_, rfl, lruSim_setEvict n r l f b hR2 hknown⟩
  | removeOp f =>
    have hleg2 : l.known f = true ∧ l.flag f = true := by
      simpa [legalOp] using hleg
    obtain ⟨nd, hnd⟩ : ∃ nd, alookup r.nodeStore f = some nd := by
      have := h9 f
      rw [hleg2.1] at this
      exact Option.isSome_iff_exists.mp this
    obtain ⟨bOld, hbl0⟩ : ∃ v, alookup l.order f = some v := by
      have := hleg2.1
      unfold StrictLRU.known at this
      exact Option.isSome_iff_exists.mp this
    have hbOld : bOld = true := by
      have hflag := flag_of_alookup l f bOld hbl0
      rw [hflag] at hleg2
      exact hleg2.2
    subst hbOld
    have hev : nd.isEvictable = true := by
      have := (h10 f nd hnd).2.2.2
      rw [this, flag_of_alookup l f true hbl0]
    have hrem := removeFrame_known r f nd hnd hev
    refine ⟨_, ?_, lruSim_erase n r l f nd hR2 hnd hbl0⟩
    show (r.removeFrame f).map (fun r2 => ((none : Option Nat), r2)) =
      some ((lruStep l (ReplOp.removeOp f)).1, _)
    rw [hrem]
    rfl
  | evictOp =>
    by_cases hzero : r.currSize = 0
    · have hevn : r.evict = none := by
        simp [LRUKReplacer.evict, hzero]
      have hlru : l.order.reverse.find? Prod.snd = none := by
        apply List.find?_eq_none.mpr
        intro x hx
        have hx2 : x ∈ l.order := List.mem_reverse.mp hx
        have := filter_len_zero l.order Prod.snd (by rw [← h11]; exact hzero) x hx2
        simp [this]
      refine ⟨r, ?_, ?_⟩
      · show (match r.evict with
          | some (f, r1) => some (some f, r1)
          | none => some (none, r)) = some ((lruStep l ReplOp.evictOp).1, r)
        rw [hevn]
        show some ((none : Option Nat), r) = some ((l.evict).1, r)
        unfold StrictLRU.evict
        rw [hlru]
      · show lruSim n r (l.evict).2
        unfold StrictLRU.evict
        rw [hlru]
        exact hR2
    · have hcne : (l.order.filter Prod.snd).length ≠ 0 := by
        rw [← h11]
        exact hzero
      obtain ⟨x, hxmem, hxsnd⟩ := filter_len_pos l.order Prod.snd hcne
      obtain ⟨⟨fv, bv⟩, hfind⟩ : ∃ p, l.order.reverse.find? Prod.snd = some p :=
        Option.isSome_iff_exists.mp
          (List.find?_isSome.mpr ⟨x, List.mem_reverse.mpr hxmem, hxsnd⟩)
      have hbv : bv = true := List.find?_some hfind
      subst hbv
      have hmem : (fv, true) ∈ l.order :=
        List.mem_reverse.mp (List.mem_of_find?_eq_some hfind)
      have hbl : alookup l.order fv = some true :=
        alookup_of_mem_nodup l.order fv true h8 hmem
      obtain ⟨nd, hnd⟩ : ∃ nd, alookup r.nodeStore fv = some nd := by
        have := h9 fv
        rw [known_of_alookup l fv true hbl] at this
        exact Option.isSome_iff_exists.mp this
      have hpoint : ∀ y ∈ l.order.reverse, r.flagOf y.1 = y.2 := by
        intro y hy
        obtain ⟨g, bg⟩ := y
        have hymem := List.mem_reverse.mp hy
        have hlook : alookup l.order g = some bg :=
          alookup_of_mem_nodup l.order g bg h8 hymem
        obtain ⟨nd2, hnd2⟩ : ∃ nd2, alookup r.nodeStore g = some nd2 := by
          have := h9 g
          rw [known_of_alookup l g bg hlook] at this
          exact Option.isSome_iff_exists.mp this
        have hflag := (h10 g nd2 hnd2).2.2.2
        show r.flagOf g = bg
        rw [flagOf_def, hnd2]
        simp only [Option.map_some', Option.getD_some]
        rw [hflag, flag_of_alookup l g bg hlook]
      have htrans : (l.order.reverse.map Prod.fst).find? (fun g => r.flagOf g) =
          some fv := by
        rw [find?_map_fst _ _ hpoint, hfind]
        rfl
      have hbuf : r.bufferList.reverse.find? (fun g => r.flagOf g) = some fv := by
        rw [h5, ← List.map_reverse]
        exact htrans
      have hhist : r.historyList.reverse.find? (fun g => r.flagOf g) = none := by
        rw [h4]
        rfl
      have hevict : r.evict = some (r.removeNode fv) := by
        unfold LRUKReplacer.evict
        rw [if_neg hzero, hhist, hbuf]
      refine ⟨(r.removeNode fv).2, ?_, ?_⟩
      · show (match r.evict with
          | some (f, r1) => some (some f, r1)
          | none => some (none, r)) = some ((lruStep l ReplOp.evictOp).1, (r.removeNode fv).2)
        rw [hevict]
        show some (some fv, (r.removeNode fv).2) = some ((l.evict).1, (r.removeNode fv).2)
        unfold StrictLRU.evict
        rw [hfind]
      · show lruSim n (r.removeNode fv).2 (l.evict).2
        unfold StrictLRU.evict
        rw [hfind]
        exact lruSim_erase n r l fv nd hR2 hnd hbl

theorem lruSim_run (n : Nat) (r : LRUKReplacer) (l : StrictLRU) (ops : List ReplOp)
    (hR : lruSim n r l) (hleg : legalOps l ops = true) :
    ∃ r1, replRun r ops = some ((lruRun l ops).1, r1) ∧
      lruSim n r1 (lruRun l ops).2 := by
  induction ops generalizing r l with
  | nil => exact ⟨r, rfl, hR⟩
  | cons op ops ih =>
    have hleg2 : legalOp l op = true ∧ legalOps (lruStep l op).2 ops = true := by
      simpa [legalOps] using hleg
    obtain ⟨r1, hstep, hsim⟩ := lruSim_step n r l op hR hleg2.1
    obtain ⟨r2, hrun, hsim2⟩ := ih r1 (lruStep l op).2 hsim hleg2.2
    refine ⟨r2, ?_, hsim2⟩
    show replRun r (op :: ops) = some ((lruRun l (op :: ops)).1, r2)
    simp only [replRun, lruRun, hstep, hrun]

theorem lruSim_start (n : Nat) :
    lruSim n (LRUKReplacer.start n 1) (StrictLRU.start n) := by
  refine ⟨rfl, rfl, rfl, rfl, rfl, rfl, ?_, ?_, ?_, ?_, rfl⟩
  · simp [LRUKReplacer.start]
  · simp [StrictLRU.start]
  · intro f
    rfl
  · intro f nd h
    exact absurd h (by simp [LRUKReplacer.start, alookup])

/-- Claim C9: with k = 1 the replacer is observationally a strict LRU replacer - on
every legal operation sequence each `Evict` returns exactly the frame the strict LRU
reference model evicts, namely the evictable frame whose single most-recent access is
oldest. -/
theorem k1_replacer_is_strict_lru (n : Nat) (ops : List ReplOp)
    (hleg : legalOps (StrictLRU.start n) ops = true) :
    ∃ r1, replRun (LRUKReplacer.start n 1) ops =
      some ((lruRun (StrictLRU.start n) ops).1, r1) := by
  obtain ⟨r1, hrun, -⟩ := lruSim_run n _ _ ops (lruSim_start n) hleg
  exact ⟨r1, hrun⟩

/-- Witness for claim C9 at a concrete legal operation sequence. -/
theorem k1_replacer_is_strict_lru_witness :
    legalOps (StrictLRU.start 3) c9Ops = true ∧
    ∃ r1, replRun (LRUKReplacer.start 3 1) c9Ops =
      some ((lruRun (StrictLRU.start 3) c9Ops).1, r1) :=
  ⟨by decide, k1_replacer_is_strict_lru 3 c9Ops (by decide)⟩
